import Mathlib

/-! Chat relay server: the session manager.

A shallow embedding of `src/common/protocol.h`, `src/server/chatserver.cpp` and the
framing loop of `src/server/clientworker.cpp`.

* `QString` is a sequence of UTF-16 code units, `QByteArray` a sequence of bytes.
* `QHash` is an association list; iteration order is the list order.
* Queued cross-thread invocations and emitted signals are recorded, in program
  order, in a list of `Effect`s returned next to the new state.
* The Qt library functions the server calls but does not define
  (`QJsonDocument::fromJson`, Unicode case folding) are fields of `QtLib`;
  the wall clock read by `QDateTime::currentDateTime()` is the argument `now`.
* `m_nextClientId` is a `quint64`: it is incremented modulo `2 ^ 64`. `Reachable` is
  reachability by every run; `ReachableFresh` by the runs in which that counter has not
  wrapped around.
-/

set_option autoImplicit false

/-! ## Qt value types -/

/-- A `QChar`: one UTF-16 code unit. -/
abbrev QChar := Nat

/-- A `QString`: the sequence of its UTF-16 code units, so `size()` is `List.length`. -/
abbrev QString := List QChar

/-- A `QByteArray`: the sequence of its bytes. -/
abbrev QByteArray := List Nat

/-- The `QString` of a string literal of the source. -/
def qstr (s : String) : QString := s.toList.map Char.toNat

/-- `QChar::isSpace`: the code points U+0009..U+000D, U+0020, U+0085, U+00A0 and the
Unicode separator categories Zs, Zl and Zp. -/
def QChar.isSpace (c : QChar) : Bool :=
  c == 0x20 || (0x09 ≤ c && c ≤ 0x0d) || c == 0x85 || c == 0xa0 || c == 0x1680 ||
  (0x2000 ≤ c && c ≤ 0x200a) || c == 0x2028 || c == 0x2029 || c == 0x202f ||
  c == 0x205f || c == 0x3000

/-- `QString::trimmed`: whitespace removed from the start and the end. -/
def QString.trimmed (s : QString) : QString :=
  ((s.dropWhile QChar.isSpace).reverse.dropWhile QChar.isSpace).reverse

/-- A `QJsonValue`. The payload of a number is its IEEE-754 bit pattern; the server
never inspects it. -/
inductive QJsonValue where
  | null
  | bool (b : Bool)
  | double (bits : Nat)
  | string (s : QString)
  | array (items : List QJsonValue)
  | object (members : List (QString × QJsonValue))
  | undefined

/-- A `QJsonObject`: its members in the order the initializer list gives them. -/
abbrev QJsonObject := List (QString × QJsonValue)

/-- `QJsonObject::value(key)`: `Undefined` when the key is absent. -/
def QJsonObject.value : QJsonObject → QString → QJsonValue
  | [], _ => QJsonValue.undefined
  | (k, v) :: rest, key => if k = key then v else QJsonObject.value rest key

/-- `QJsonValue::toString()`: the string, or the empty string for any other kind. -/
def QJsonValue.toString : QJsonValue → QString
  | QJsonValue.string s => s
  | _ => []

/-- The Qt library functions used by the server whose code is not part of the
repository. -/
structure QtLib where
  /-- `QJsonDocument::fromJson(line)` followed by the `isObject()` test: `none` on a
  parse error or when the document is not an object. -/
  fromJson : QByteArray → Option QJsonObject
  /-- The case folding of one code unit used by `Qt::CaseInsensitive` comparison. -/
  foldCase : QChar → QChar

/-! ## QHash -/

/-- A `QHash<κ, ν>` as an association list. -/
abbrev QHash (κ ν : Type) := List (κ × ν)

namespace QHash

variable {κ ν : Type} [DecidableEq κ]

/-- `QHash::find`: the value stored under `k`, if any. -/
def find : QHash κ ν → κ → Option ν
  | [], _ => none
  | (k', v) :: m, k => if k' = k then some v else find m k

/-- `QHash::contains`. -/
def contains (m : QHash κ ν) (k : κ) : Bool := (find m k).isSome

/-- `QHash::remove` / `QHash::erase`. -/
def erase (m : QHash κ ν) (k : κ) : QHash κ ν := m.filter (fun p => decide (p.1 ≠ k))

/-- `QHash::insert`: an existing value under `k` is replaced. -/
def insert (m : QHash κ ν) (k : κ) (v : ν) : QHash κ ν := (k, v) :: erase m k

/-- Assignment through the reference `m[k]` to an entry that exists. -/
def modify (m : QHash κ ν) (k : κ) (f : ν → ν) : QHash κ ν :=
  m.map (fun p => if p.1 = k then (p.1, f p.2) else p)

/-- `QHash::keys`. -/
def keys (m : QHash κ ν) : List κ := m.map Prod.fst

end QHash

/-! ## protocol.h -/

namespace Protocol

def kMaxNameLength : Nat := 20
def kMaxMessageLength : Nat := 500

def normalizeName (name : QString) : QString := name.trimmed

def normalizeText (text : QString) : QString := text.trimmed

def isValidName (name : QString) : Bool :=
  !name.isEmpty && decide (name.length ≤ kMaxNameLength)

def isValidMessage (text : QString) : Bool :=
  !text.isEmpty && decide (text.length ≤ kMaxMessageLength)

end Protocol

/-! ## chatserver.h / chatserver.cpp -/

/-- `ChatServer::ClientEntry`; `worker` and `thread` record whether the pointer is
non-null. -/
structure ClientEntry where
  name : QString
  worker : Bool
  thread : Bool
  loggedIn : Bool

/-- The default-constructed `ClientEntry`. -/
def ClientEntry.default : ClientEntry :=
  { name := [], worker := false, thread := false, loggedIn := false }

/-- The state of a `ChatServer`. `isListening` is `m_server->isListening()`,
`m_connectionLimit` the number of permits available in the semaphore. -/
structure ChatServer where
  isListening : Bool
  m_nextClientId : Nat
  m_stopping : Bool
  m_connectionLimit : Nat
  m_clients : QHash Nat ClientEntry
  m_nameToId : QHash QString Nat

/-- The state after the constructor. -/
def ChatServer.initial : ChatServer :=
  { isListening := false, m_nextClientId := 1, m_stopping := false,
    m_connectionLimit := 100, m_clients := [], m_nameToId := [] }

/-- What a handler hands to other threads or emits, in program order. -/
inductive Effect where
  /-- Queued `sendLine(Protocol::toLine(obj))` on the worker of `clientId`. -/
  | sendLine (clientId : Nat) (obj : QJsonObject)
  /-- Queued `disconnectFromHost` on the worker of `clientId`. -/
  | disconnectFromHost (clientId : Nat)
  /-- Signal `log`; the text is not modelled. -/
  | log
  /-- Signal `runningChanged`. -/
  | runningChanged (running : Bool)
  /-- Signal `usersChanged`. -/
  | usersChanged (users : List QString)

def systemMessage (now : QString) (text : QString) : QJsonObject :=
  [(qstr "type", QJsonValue.string (qstr "system")),
   (qstr "text", QJsonValue.string text),
   (qstr "time", QJsonValue.string now)]

namespace ChatServer

def isRunning (s : ChatServer) : Bool := s.isListening

def sendJson (s : ChatServer) (clientId : Nat) (obj : QJsonObject) : List Effect :=
  match QHash.find s.m_clients clientId with
  | none => []
  | some entry =>
    if !entry.worker then [] else [Effect.log, Effect.sendLine clientId obj]

def broadcastJson (s : ChatServer) (obj : QJsonObject) (exceptClientId : Nat) :
    List Effect :=
  s.m_clients.flatMap (fun it =>
    if !it.2.loggedIn || !it.2.worker then []
    else if exceptClientId != 0 && it.1 == exceptClientId then []
    else [Effect.log, Effect.sendLine it.1 obj])

/-- The order of `QString::compare(a, b, Qt::CaseInsensitive) <= 0`: lexicographic on
the folded code units. -/
def caseInsensitiveLe (lib : QtLib) : QString → QString → Bool
  | [], _ => true
  | _ :: _, [] => false
  | a :: as, b :: bs =>
    if lib.foldCase a < lib.foldCase b then true
    else if lib.foldCase b < lib.foldCase a then false
    else caseInsensitiveLe lib as bs

/-- Insertion of one name in a list sorted by `caseInsensitiveLe`. -/
def sortedInsert (lib : QtLib) (u : QString) : List QString → List QString
  | [] => [u]
  | v :: rest =>
    if caseInsensitiveLe lib u v then u :: v :: rest else v :: sortedInsert lib u rest

/-- `QStringList::sort(Qt::CaseInsensitive)`. -/
def sortCaseInsensitive (lib : QtLib) : List QString → List QString
  | [] => []
  | u :: rest => sortedInsert lib u (sortCaseInsensitive lib rest)

def currentUsers (lib : QtLib) (s : ChatServer) : List QString :=
  sortCaseInsensitive lib
    ((s.m_clients.filter (fun it => it.2.loggedIn)).map (fun it => it.2.name))

/-- The `user_list` message for a roster. -/
def userListMessage (users : List QString) : QJsonObject :=
  [(qstr "type", QJsonValue.string (qstr "user_list")),
   (qstr "users", QJsonValue.array (users.map QJsonValue.string))]

def broadcastUsers (lib : QtLib) (s : ChatServer) : List Effect :=
  Effect.usersChanged (currentUsers lib s) ::
    broadcastJson s (userListMessage (currentUsers lib s)) 0

end ChatServer

/-! ## Handlers -/

/-- The messages of the source's `QJsonObject` literals. -/
def errorMessage (message : String) : QJsonObject :=
  [(qstr "type", QJsonValue.string (qstr "error")),
   (qstr "message", QJsonValue.string (qstr message))]

def loginErrorMessage (reason : String) : QJsonObject :=
  [(qstr "type", QJsonValue.string (qstr "login_error")),
   (qstr "reason", QJsonValue.string (qstr reason))]

def loginOkMessage (name : QString) : QJsonObject :=
  [(qstr "type", QJsonValue.string (qstr "login_ok")),
   (qstr "name", QJsonValue.string name)]

def chatMessage (src text now : QString) : QJsonObject :=
  [(qstr "type", QJsonValue.string (qstr "chat")),
   (qstr "scope", QJsonValue.string (qstr "broadcast")),
   (qstr "from", QJsonValue.string src),
   (qstr "text", QJsonValue.string text),
   (qstr "time", QJsonValue.string now)]

def privateMessage (src dst text now : QString) : QJsonObject :=
  [(qstr "type", QJsonValue.string (qstr "chat")),
   (qstr "scope", QJsonValue.string (qstr "private")),
   (qstr "from", QJsonValue.string src),
   (qstr "to", QJsonValue.string dst),
   (qstr "text", QJsonValue.string text),
   (qstr "time", QJsonValue.string now)]

namespace ChatServer

/-- The queued `disconnectFromHost` guarded by `if (client.worker)`. -/
def scheduleDisconnect (clientId : Nat) (entry : ClientEntry) : List Effect :=
  if entry.worker then [Effect.disconnectFromHost clientId] else []

/-- `ChatServer::onIncomingConnection`. The client id is a `quint64`. -/
def onIncomingConnection (s : ChatServer) : ChatServer × List Effect :=
  if s.m_connectionLimit = 0 then (s, [Effect.log])
  else
    ({ s with
        m_connectionLimit := s.m_connectionLimit - 1
        m_nextClientId := (s.m_nextClientId + 1) % 2 ^ 64
        m_clients := QHash.insert s.m_clients s.m_nextClientId
          { name := [], worker := true, thread := true, loggedIn := false } },
     [Effect.log])

/-- `ChatServer::removeClient`. The bounded wait on the worker thread and the log line
of its timeout depend on real time and are left out. -/
def removeClient (lib : QtLib) (s : ChatServer) (clientId : Nat) (announce : Bool)
    (now : QString) : ChatServer × List Effect :=
  match QHash.find s.m_clients clientId with
  | none => (s, [])
  | some entry =>
    let s1 : ChatServer := { s with m_clients := QHash.erase s.m_clients clientId }
    let s2 : ChatServer :=
      if entry.loggedIn then { s1 with m_nameToId := QHash.erase s1.m_nameToId entry.name }
      else s1
    let announced : List Effect :=
      if entry.loggedIn && announce then
        broadcastJson s2 (systemMessage now (entry.name ++ qstr " left")) 0 ++
          broadcastUsers lib s2
      else []
    ({ s2 with m_connectionLimit := s2.m_connectionLimit + 1 },
     announced ++ scheduleDisconnect clientId entry)

/-- `ChatServer::onClientDisconnected`. -/
def onClientDisconnected (lib : QtLib) (s : ChatServer) (clientId : Nat) (now : QString) :
    ChatServer × List Effect :=
  removeClient lib s clientId (!s.m_stopping) now

/-- The loop of `stop()` over `m_clients.keys()`. -/
def removeAll (lib : QtLib) (now : QString) :
    List Nat → ChatServer × List Effect → ChatServer × List Effect
  | [], acc => acc
  | id :: ids, acc =>
    removeAll lib now ids
      ((removeClient lib acc.1 id false now).1, acc.2 ++ (removeClient lib acc.1 id false now).2)

/-- `ChatServer::stop`. -/
def stop (lib : QtLib) (s : ChatServer) (now : QString) : ChatServer × List Effect :=
  if !s.isRunning && s.m_clients.isEmpty then (s, [])
  else
    let s1 : ChatServer := { s with m_stopping := true, isListening := false }
    let r := removeAll lib now (QHash.keys s1.m_clients) (s1, [])
    ({ r.1 with m_stopping := false },
     r.2 ++ [Effect.usersChanged [], Effect.runningChanged false, Effect.log])

/-- `ChatServer::start`; `listenOk` is the result of `m_server->listen(address, port)`.
The third component is the returned `bool`. -/
def start (lib : QtLib) (s : ChatServer) (listenOk : Bool) (now : QString) :
    ChatServer × List Effect × Bool :=
  let r := stop lib s now
  if listenOk then
    ({ r.1 with isListening := true }, r.2 ++ [Effect.log, Effect.runningChanged true], true)
  else
    (r.1, r.2 ++ [Effect.log, Effect.runningChanged false], false)

/-- The branch of `onClientLine` taken once the line decoded to the object `obj` and the
entry `client` of `clientId` was found. -/
def handleObject (lib : QtLib) (s : ChatServer) (clientId : Nat) (client : ClientEntry)
    (obj : QJsonObject) (now : QString) : ChatServer × List Effect :=
  let type := (obj.value (qstr "type")).toString
  if type.isEmpty then
    (s, Effect.log :: sendJson s clientId (errorMessage "missing type"))
  else if type = qstr "login" then
    if client.loggedIn then
      (s, Effect.log :: sendJson s clientId (loginErrorMessage "already_logged_in"))
    else
      let name := Protocol.normalizeName (obj.value (qstr "name")).toString
      if !Protocol.isValidName name then
        (s, Effect.log :: (sendJson s clientId (loginErrorMessage "invalid_name") ++
          scheduleDisconnect clientId client))
      else if QHash.contains s.m_nameToId name then
        (s, Effect.log :: (sendJson s clientId (loginErrorMessage "name_taken") ++
          scheduleDisconnect clientId client))
      else
        let s1 : ChatServer :=
          { s with
              m_clients := QHash.modify s.m_clients clientId
                (fun c => { c with name := name, loggedIn := true })
              m_nameToId := QHash.insert s.m_nameToId name clientId }
        (s1, Effect.log :: (sendJson s1 clientId (loginOkMessage name) ++
          broadcastJson s1 (systemMessage now (name ++ qstr " joined")) 0 ++
          broadcastUsers lib s1 ++ [Effect.log]))
  else if !client.loggedIn then
    (s, Effect.log :: sendJson s clientId (errorMessage "not logged in"))
  else if type = qstr "chat" then
    let text := Protocol.normalizeText (obj.value (qstr "text")).toString
    if !Protocol.isValidMessage text then
      (s, Effect.log :: sendJson s clientId (errorMessage "invalid message"))
    else
      (s, Effect.log :: (broadcastJson s (chatMessage client.name text now) 0 ++ [Effect.log]))
  else if type = qstr "private" then
    let dst := Protocol.normalizeName (obj.value (qstr "to")).toString
    let text := Protocol.normalizeText (obj.value (qstr "text")).toString
    if !Protocol.isValidName dst || !Protocol.isValidMessage text then
      (s, Effect.log :: sendJson s clientId (errorMessage "invalid private message"))
    else
      match QHash.find s.m_nameToId dst with
      | none =>
        (s, Effect.log ::
          sendJson s clientId (systemMessage now (qstr "user not found: " ++ dst)))
      | some destId =>
        (s, Effect.log :: (sendJson s destId (privateMessage client.name dst text now) ++
          sendJson s clientId (privateMessage client.name dst text now) ++ [Effect.log]))
  else if type = qstr "logout" then
    (s, Effect.log :: scheduleDisconnect clientId client)
  else
    (s, Effect.log :: sendJson s clientId (errorMessage "unknown type"))

/-- `ChatServer::onClientLine`. -/
def onClientLine (lib : QtLib) (s : ChatServer) (clientId : Nat) (line : QByteArray)
    (now : QString) : ChatServer × List Effect :=
  match QHash.find s.m_clients clientId with
  | none => (s, [])
  | some client =>
    match lib.fromJson line with
    | none => (s, Effect.log :: sendJson s clientId (errorMessage "invalid json"))
    | some obj => handleObject lib s clientId client obj now

end ChatServer

/-! ## Runs -/

/-- The states a server reaches from its constructed state through its public and
event-driven entry points, in any number and order. -/
inductive Reachable (lib : QtLib) : ChatServer → Prop where
  | init : Reachable lib ChatServer.initial
  | start (s : ChatServer) (listenOk : Bool) (now : QString) :
      Reachable lib s → Reachable lib (ChatServer.start lib s listenOk now).1
  | stop (s : ChatServer) (now : QString) :
      Reachable lib s → Reachable lib (ChatServer.stop lib s now).1
  | incoming (s : ChatServer) :
      Reachable lib s → Reachable lib (ChatServer.onIncomingConnection s).1
  | line (s : ChatServer) (clientId : Nat) (line : QByteArray) (now : QString) :
      Reachable lib s → Reachable lib (ChatServer.onClientLine lib s clientId line now).1
  | disconnected (s : ChatServer) (clientId : Nat) (now : QString) :
      Reachable lib s → Reachable lib (ChatServer.onClientDisconnected lib s clientId now).1

/-- The states reached by the runs in which the 64-bit client-id counter has not wrapped
around: a connection attempt is made only while `m_nextClientId + 1 < 2 ^ 64`. The counter
starts at 1 and grows by one per admitted connection, so these are the runs with fewer
than `2 ^ 64 - 1` admissions. -/
inductive ReachableFresh (lib : QtLib) : ChatServer → Prop where
  | init : ReachableFresh lib ChatServer.initial
  | start (s : ChatServer) (listenOk : Bool) (now : QString) :
      ReachableFresh lib s → ReachableFresh lib (ChatServer.start lib s listenOk now).1
  | stop (s : ChatServer) (now : QString) :
      ReachableFresh lib s → ReachableFresh lib (ChatServer.stop lib s now).1
  | incoming (s : ChatServer) :
      ReachableFresh lib s → s.m_nextClientId + 1 < 2 ^ 64 →
      ReachableFresh lib (ChatServer.onIncomingConnection s).1
  | line (s : ChatServer) (clientId : Nat) (line : QByteArray) (now : QString) :
      ReachableFresh lib s →
      ReachableFresh lib (ChatServer.onClientLine lib s clientId line now).1
  | disconnected (s : ChatServer) (clientId : Nat) (now : QString) :
      ReachableFresh lib s →
      ReachableFresh lib (ChatServer.onClientDisconnected lib s clientId now).1

/-- The messages queued for connection `c`, in enqueue order. -/
def sentTo (c : Nat) : List Effect → List QJsonObject
  | [] => []
  | Effect.sendLine id obj :: rest => if id = c then obj :: sentTo c rest else sentTo c rest
  | _ :: rest => sentTo c rest

/-- The connections for which a disconnect was scheduled, in order. -/
def disconnectsOf : List Effect → List Nat
  | [] => []
  | Effect.disconnectFromHost id :: rest => id :: disconnectsOf rest
  | _ :: rest => disconnectsOf rest

/-- Every queued message with its addressee, in order. -/
def allSends : List Effect → List (Nat × QJsonObject)
  | [] => []
  | Effect.sendLine id obj :: rest => (id, obj) :: allSends rest
  | _ :: rest => allSends rest

/-! ## Auxiliary definitions for the proofs -/

namespace ChatServer

/-- The state after an accepted login. -/
def loggedInState (s : ChatServer) (clientId : Nat) (name : QString) : ChatServer :=
  { s with
      m_clients := QHash.modify s.m_clients clientId
        (fun c => { c with name := name, loggedIn := true })
      m_nameToId := QHash.insert s.m_nameToId name clientId }

/-- The conditions under which `handleObject` accepts a login. -/
def acceptsLogin (s : ChatServer) (client : ClientEntry) (obj : QJsonObject) : Bool :=
  !(obj.value (qstr "type")).toString.isEmpty &&
  decide ((obj.value (qstr "type")).toString = qstr "login") &&
  !client.loggedIn &&
  Protocol.isValidName (Protocol.normalizeName (obj.value (qstr "name")).toString) &&
  !QHash.contains s.m_nameToId (Protocol.normalizeName (obj.value (qstr "name")).toString)

/-- One step of the loop of `broadcastJson` with no excluded client. -/
def broadcastStep (obj : QJsonObject) (it : Nat × ClientEntry) : List Effect :=
  if !it.2.loggedIn || !it.2.worker then []
  else if (0 : Nat) != 0 && it.1 == 0 then []
  else [Effect.log, Effect.sendLine it.1 obj]

end ChatServer

/-- What holds of the tables of a server between two events of any run: an id occurs
once in the session table, a tracked session has its worker, and the name of a logged-in
session is bound to its id in the name registry. -/
structure TableInv (s : ChatServer) : Prop where
  nodup : (QHash.keys s.m_clients).Nodup
  workers : ∀ (id : Nat) (e : ClientEntry), QHash.find s.m_clients id = some e →
    e.worker = true
  registered : ∀ (id : Nat) (e : ClientEntry), QHash.find s.m_clients id = some e →
    e.loggedIn = true → QHash.find s.m_nameToId e.name = some id

/-- A stand-in for the JSON decoder: the first byte of a line selects the request
(`L` login, `C` chat, `P` private with a one-unit target name, `O` logout, `X` a
request of an unknown type); any other line does not decode. -/
def demoDecode : QByteArray → Option QJsonObject
  | 76 :: name =>
    some [(qstr "type", QJsonValue.string (qstr "login")), (qstr "name", QJsonValue.string name)]
  | 67 :: text =>
    some [(qstr "type", QJsonValue.string (qstr "chat")), (qstr "text", QJsonValue.string text)]
  | 80 :: t :: text =>
    some [(qstr "type", QJsonValue.string (qstr "private")),
      (qstr "to", QJsonValue.string [t]), (qstr "text", QJsonValue.string text)]
  | [79] => some [(qstr "type", QJsonValue.string (qstr "logout"))]
  | [88] => some [(qstr "type", QJsonValue.string (qstr "ping"))]
  | _ => none

/-- The library instance of the examples: ASCII case folding. -/
def demoLib : QtLib :=
  { fromJson := demoDecode
    foldCase := fun c => if 65 ≤ c ∧ c ≤ 90 then c + 32 else c }

/-- A listening server with the three connections 1, 2 and 3, none logged in. -/
def demoConnected : ChatServer :=
  (ChatServer.onIncomingConnection
    (ChatServer.onIncomingConnection
      (ChatServer.onIncomingConnection
        (ChatServer.start demoLib ChatServer.initial true []).1).1).1).1

/-- Connection 1 has logged in as `a`. -/
def demoOne : ChatServer :=
  (ChatServer.onClientLine demoLib demoConnected 1 (76 :: qstr " a ") (qstr "t1")).1

/-- Connections 1 and 2 have logged in as `a` and `B`; connection 3 has not. -/
def demoRoom : ChatServer :=
  (ChatServer.onClientLine demoLib demoOne 2 (76 :: qstr "B") (qstr "t2")).1

/-- The `QByteArray` of an ASCII literal. -/
def qbytes (s : String) : QByteArray := s.toList.map Char.toNat

/-- The C-locale `isspace` that `QByteArray::trimmed` uses: space, `\t`, `\n`, `\v`,
`\f` and `\r`. -/
def QByteArray.isSpace (c : Nat) : Bool := c == 32 || (9 ≤ c && c ≤ 13)

/-- `QByteArray::trimmed`. -/
def QByteArray.trimmed (b : QByteArray) : QByteArray :=
  ((b.dropWhile QByteArray.isSpace).reverse.dropWhile QByteArray.isSpace).reverse

/-- `QByteArray::indexOf(ch)`: the index of the first `ch`, or -1. -/
def QByteArray.indexOf : QByteArray → Nat → Int
  | [], _ => -1
  | c :: rest, ch =>
    if c = ch then 0
    else if QByteArray.indexOf rest ch < 0 then -1
    else QByteArray.indexOf rest ch + 1

/-- `QByteArray::left(len)`. -/
def QByteArray.left (b : QByteArray) (len : Int) : QByteArray := b.take len.toNat

/-- `QByteArray::remove(pos, len)`. -/
def QByteArray.remove (b : QByteArray) (pos len : Int) : QByteArray :=
  if pos < 0 then b else b.take pos.toNat ++ b.drop (pos.toNat + len.toNat)

namespace ClientWorker

/-- The `while (true)` loop of `onReadyRead` on the buffer `m_buffer`: the lines handed to
`lineReceived`, in order, and the buffer that is left; `none` when the fuel runs out
before the loop breaks. `newlineIndex` is the `int` of the source; it is kept as the
index `indexOf` returns, which is what the code computes for a buffer of fewer than
`2 ^ 31` bytes. -/
def readLoop : Nat → QByteArray → Option (List QByteArray × QByteArray)
  | 0, _ => none
  | fuel + 1, m_buffer =>
    if QByteArray.indexOf m_buffer 10 < 0 then some ([], m_buffer)
    else
      match readLoop fuel
          (QByteArray.remove m_buffer 0 (QByteArray.indexOf m_buffer 10 + 1)) with
      | none => none
      | some r =>
        if (QByteArray.trimmed
            (QByteArray.left m_buffer (QByteArray.indexOf m_buffer 10))).isEmpty then
          some r
        else
          some (QByteArray.trimmed
            (QByteArray.left m_buffer (QByteArray.indexOf m_buffer 10)) :: r.1, r.2)

/-- `ClientWorker::onReadyRead` of a worker with a socket: `bytes` is what `readAll()`
returns. One pass of the loop removes at least one byte, so the loop is given one more
pass than the buffer has bytes. -/
def onReadyRead (m_buffer bytes : QByteArray) : Option (List QByteArray × QByteArray) :=
  readLoop ((m_buffer ++ bytes).length + 1) (m_buffer ++ bytes)

/-- One more byte in front of a byte string cut at its newlines. -/
def consByte (c : Nat) (p : List QByteArray × QByteArray) : List QByteArray × QByteArray :=
  if c = 10 then ([] :: p.1, p.2)
  else
    match p.1 with
    | [] => ([], c :: p.2)
    | seg :: segs => ((c :: seg) :: segs, p.2)

/-- A byte string cut at its newlines: the texts that a newline ends, in order and
without the newline, and what follows the last newline. -/
def segments : QByteArray → List QByteArray × QByteArray
  | [] => ([], [])
  | c :: rest => consByte c (segments rest)

/-- The lines emitted for a list of texts: each trimmed, the empty ones dropped. -/
def emitted (segs : List QByteArray) : List QByteArray :=
  (segs.map QByteArray.trimmed).filter (fun line => !line.isEmpty)

end ClientWorker

/-! ## Facts about `QHash` -/

namespace QHash

variable {κ ν : Type} [DecidableEq κ]

theorem find_cons (a : κ) (v : ν) (m : QHash κ ν) (k : κ) :
    find ((a, v) :: m) k = if a = k then some v else find m k := rfl

theorem erase_cons (a : κ) (v : ν) (m : QHash κ ν) (k : κ) :
    erase ((a, v) :: m) k = if a = k then erase m k else (a, v) :: erase m k := by
  by_cases h : a = k <;> simp [erase, List.filter_cons, h]

theorem modify_cons (a : κ) (v : ν) (m : QHash κ ν) (k : κ) (f : ν → ν) :
    modify ((a, v) :: m) k f = (a, if a = k then f v else v) :: modify m k f := by
  by_cases h : a = k <;> simp [modify, h]

theorem find_erase (m : QHash κ ν) (k k' : κ) :
    find (erase m k) k' = if k' = k then none else find m k' := by
  induction m with
  | nil => simp [erase, find]
  | cons p m ih =>
    obtain ⟨a, v⟩ := p
    rw [erase_cons, find_cons]
    by_cases hak : a = k
    · rw [if_pos hak, ih]
      by_cases hk : k' = k
      · simp only [if_pos hk]
      · have : a ≠ k' := fun h => hk (by rw [← h, hak])
        simp only [if_neg hk, if_neg this]
    · rw [if_neg hak, find_cons, ih]
      by_cases hk : k' = k
      · have : a ≠ k' := fun h => hak (by rw [h, hk])
        simp only [if_pos hk, if_neg this]
      · simp only [if_neg hk]

theorem find_insert (m : QHash κ ν) (k k' : κ) (v : ν) :
    find (insert m k v) k' = if k' = k then some v else find m k' := by
  have h : insert m k v = (k, v) :: erase m k := rfl
  rw [h, find_cons, find_erase]
  by_cases hk : k' = k
  · simp only [if_pos hk, if_pos hk.symm]
  · have : k ≠ k' := fun h => hk h.symm
    simp only [if_neg hk, if_neg this]

theorem find_modify (m : QHash κ ν) (k k' : κ) (f : ν → ν) :
    find (modify m k f) k' = if k' = k then (find m k').map f else find m k' := by
  induction m with
  | nil => simp [modify, find]
  | cons p m ih =>
    obtain ⟨a, v⟩ := p
    rw [modify_cons, find_cons, find_cons, ih]
    by_cases hak' : a = k'
    · simp only [if_pos hak']
      by_cases hk : k' = k
      · have hak : a = k := by rw [hak', hk]
        simp only [if_pos hk, if_pos hak]
        rfl
      · have hak : a ≠ k := fun h => hk (by rw [← hak', h])
        simp only [if_neg hk, if_neg hak]
    · simp only [if_neg hak']

theorem keys_modify (m : QHash κ ν) (k : κ) (f : ν → ν) : keys (modify m k f) = keys m := by
  induction m with
  | nil => rfl
  | cons p m ih =>
    have ih' : List.map Prod.fst (List.map (fun p => if p.1 = k then (p.1, f p.2) else p) m)
        = List.map Prod.fst m := ih
    by_cases h : p.1 = k <;> simp [keys, modify, h, ih']

theorem find_eq_none_iff (m : QHash κ ν) (k : κ) : find m k = none ↔ k ∉ keys m := by
  induction m with
  | nil => simp [find, keys]
  | cons p m ih =>
    obtain ⟨a, v⟩ := p
    by_cases hak : a = k
    · simp [find, keys, hak]
    · have : k ≠ a := fun h => hak h.symm
      simp only [find, hak, if_false, ih, keys, List.map_cons, List.mem_cons, this, false_or]

theorem find_some_mem (m : QHash κ ν) (k : κ) (v : ν) (h : find m k = some v) :
    k ∈ keys m := by
  by_contra hn
  rw [← find_eq_none_iff] at hn
  rw [hn] at h
  exact Option.noConfusion h

theorem keys_erase (m : QHash κ ν) (k : κ) :
    keys (erase m k) = (keys m).filter (fun a => decide (a ≠ k)) := by
  unfold keys erase
  rw [List.filter_map]
  rfl

theorem nodup_keys_erase (m : QHash κ ν) (k : κ) (h : (keys m).Nodup) :
    (keys (erase m k)).Nodup := by
  rw [keys_erase]
  exact h.filter _

theorem mem_keys_erase (m : QHash κ ν) (k a : κ) :
    a ∈ keys (erase m k) ↔ a ∈ keys m ∧ a ≠ k := by
  rw [keys_erase]
  simp [List.mem_filter]

theorem erase_of_not_mem (m : QHash κ ν) (k : κ) (h : k ∉ keys m) : erase m k = m := by
  induction m with
  | nil => rfl
  | cons p m ih =>
    obtain ⟨a, v⟩ := p
    have h1 : a ≠ k := fun e => h (by simp [keys, e])
    have h2 : k ∉ keys m := fun e => h (by simp [keys] at e ⊢; exact Or.inr e)
    rw [erase_cons, if_neg h1, ih h2]

theorem nodup_keys_insert (m : QHash κ ν) (k : κ) (v : ν) (h : (keys m).Nodup) :
    (keys (insert m k v)).Nodup := by
  have h1 : keys (insert m k v) = k :: keys (erase m k) := rfl
  rw [h1, List.nodup_cons]
  refine ⟨?_, nodup_keys_erase m k h⟩
  intro hm
  exact ((mem_keys_erase m k k).1 hm).2 rfl

end QHash

/-! ## The invariant of the session manager -/

namespace ChatServer

theorem removeClient_fst (lib : QtLib) (s : ChatServer) (clientId : Nat) (announce : Bool)
    (now : QString) :
    (removeClient lib s clientId announce now).1 =
      match QHash.find s.m_clients clientId with
      | none => s
      | some entry =>
        { s with
            m_clients := QHash.erase s.m_clients clientId
            m_nameToId :=
              if entry.loggedIn then QHash.erase s.m_nameToId entry.name else s.m_nameToId
            m_connectionLimit := s.m_connectionLimit + 1 } := by
  unfold removeClient
  cases hf : QHash.find s.m_clients clientId with
  | none => rfl
  | some entry =>
    cases hl : entry.loggedIn <;> simp [hl]

theorem removeClient_untracked (lib : QtLib) (s : ChatServer) (clientId : Nat)
    (announce : Bool) (now : QString) (h : QHash.find s.m_clients clientId = none) :
    removeClient lib s clientId announce now = (s, []) := by
  unfold removeClient
  rw [h]

end ChatServer

namespace ChatServer

theorem handleObject_fst (lib : QtLib) (s : ChatServer) (clientId : Nat)
    (client : ClientEntry) (obj : QJsonObject) (now : QString) :
    (handleObject lib s clientId client obj now).1 =
      if acceptsLogin s client obj then
        loggedInState s clientId (Protocol.normalizeName (obj.value (qstr "name")).toString)
      else s := by
  unfold handleObject acceptsLogin
  dsimp only
  by_cases h1 : (obj.value (qstr "type")).toString.isEmpty = true
  · rw [if_pos h1, h1]; rfl
  · rw [if_neg h1]
    by_cases h2 : (obj.value (qstr "type")).toString = qstr "login"
    · rw [if_pos h2]
      by_cases h3 : client.loggedIn = true
      · rw [if_pos h3, h3]; simp
      · rw [if_neg h3]
        by_cases h4 : (!Protocol.isValidName
            (Protocol.normalizeName (obj.value (qstr "name")).toString)) = true
        · rw [if_pos h4]
          simp only [Bool.not_eq_true'] at h4
          rw [h4]; simp
        · rw [if_neg h4]
          by_cases h5 : QHash.contains s.m_nameToId
              (Protocol.normalizeName (obj.value (qstr "name")).toString) = true
          · rw [if_pos h5, h5]; simp
          · rw [if_neg h5]
            have e1 : (obj.value (qstr "type")).toString.isEmpty = false := by
              simpa using h1
            have e3 : client.loggedIn = false := by simpa using h3
            have e4 : Protocol.isValidName
                (Protocol.normalizeName (obj.value (qstr "name")).toString) = true := by
              simpa using h4
            have e5 : QHash.contains s.m_nameToId
                (Protocol.normalizeName (obj.value (qstr "name")).toString) = false := by
              simpa using h5
            rw [e1, e3, e4, e5, decide_eq_true h2]
            rfl
    · rw [if_neg h2, decide_eq_false h2]
      have hs : (if (!(obj.value (qstr "type")).toString.isEmpty && false && !client.loggedIn &&
          Protocol.isValidName (Protocol.normalizeName (obj.value (qstr "name")).toString) &&
          !QHash.contains s.m_nameToId
            (Protocol.normalizeName (obj.value (qstr "name")).toString)) = true
          then loggedInState s clientId
            (Protocol.normalizeName (obj.value (qstr "name")).toString)
          else s) = s := by
        simp
      rw [hs]
      split_ifs <;> first | rfl | (split <;> rfl)

theorem onClientLine_fst (lib : QtLib) (s : ChatServer) (clientId : Nat)
    (line : QByteArray) (now : QString) :
    (onClientLine lib s clientId line now).1 =
      match QHash.find s.m_clients clientId, lib.fromJson line with
      | some client, some obj =>
        if acceptsLogin s client obj then
          loggedInState s clientId (Protocol.normalizeName (obj.value (qstr "name")).toString)
        else s
      | _, _ => s := by
  unfold onClientLine
  cases hf : QHash.find s.m_clients clientId with
  | none => rfl
  | some client =>
    cases hj : lib.fromJson line with
    | none => rfl
    | some obj => exact handleObject_fst lib s clientId client obj now

theorem removeAll_flags (lib : QtLib) (now : QString) (ids : List Nat)
    (acc : ChatServer × List Effect) :
    (removeAll lib now ids acc).1.m_stopping = acc.1.m_stopping ∧
    (removeAll lib now ids acc).1.isListening = acc.1.isListening ∧
    (removeAll lib now ids acc).1.m_nextClientId = acc.1.m_nextClientId := by
  induction ids generalizing acc with
  | nil => exact ⟨rfl, rfl, rfl⟩
  | cons id ids ih =>
    unfold removeAll
    have h := ih ((removeClient lib acc.1 id false now).1,
      acc.2 ++ (removeClient lib acc.1 id false now).2)
    have hr : (removeClient lib acc.1 id false now).1.m_stopping = acc.1.m_stopping ∧
        (removeClient lib acc.1 id false now).1.isListening = acc.1.isListening ∧
        (removeClient lib acc.1 id false now).1.m_nextClientId = acc.1.m_nextClientId := by
      rw [removeClient_fst]
      cases QHash.find acc.1.m_clients id <;> exact ⟨rfl, rfl, rfl⟩
    exact ⟨h.1.trans hr.1, h.2.1.trans hr.2.1, h.2.2.trans hr.2.2⟩

theorem stop_stopping (lib : QtLib) (s : ChatServer) (now : QString)
    (h : s.m_stopping = false) : (stop lib s now).1.m_stopping = false := by
  unfold stop
  by_cases hc : (!s.isRunning && s.m_clients.isEmpty) = true
  · rw [if_pos hc]; exact h
  · rw [if_neg hc]

theorem start_stopping (lib : QtLib) (s : ChatServer) (listenOk : Bool) (now : QString)
    (h : s.m_stopping = false) : (start lib s listenOk now).1.m_stopping = false := by
  unfold start
  cases listenOk with
  | true => exact stop_stopping lib s now h
  | false => exact stop_stopping lib s now h

end ChatServer

theorem TableInv.carry {s t : ChatServer} (h : TableInv s) (h1 : t.m_clients = s.m_clients)
    (h2 : t.m_nameToId = s.m_nameToId) : TableInv t := by
  refine ⟨?_, ?_, ?_⟩
  · rw [h1]; exact h.nodup
  · rw [h1]; exact h.workers
  · rw [h1, h2]; exact h.registered

theorem tinv_initial : TableInv ChatServer.initial := by
  refine ⟨List.nodup_nil, ?_, ?_⟩
  · intro id e h; exact Option.noConfusion h
  · intro id e h; exact Option.noConfusion h

namespace ChatServer

theorem tinv_removeClient (lib : QtLib) (s : ChatServer) (clientId : Nat) (announce : Bool)
    (now : QString) (h : TableInv s) :
    TableInv (removeClient lib s clientId announce now).1 := by
  rw [removeClient_fst]
  cases hf : QHash.find s.m_clients clientId with
  | none => exact h
  | some entry =>
    refine ⟨QHash.nodup_keys_erase _ _ h.nodup, ?_, ?_⟩
    · intro id e he
      have he' : QHash.find (QHash.erase s.m_clients clientId) id = some e := he
      rw [QHash.find_erase] at he'
      by_cases hid : id = clientId
      · rw [if_pos hid] at he'; exact Option.noConfusion he'
      · rw [if_neg hid] at he'; exact h.workers id e he'
    · intro id e he hl
      have he' : QHash.find (QHash.erase s.m_clients clientId) id = some e := he
      rw [QHash.find_erase] at he'
      by_cases hid : id = clientId
      · rw [if_pos hid] at he'; exact Option.noConfusion he'
      · rw [if_neg hid] at he'
        have hold := h.registered id e he' hl
        show QHash.find (if entry.loggedIn then QHash.erase s.m_nameToId entry.name
          else s.m_nameToId) e.name = some id
        by_cases hle : entry.loggedIn = true
        · rw [if_pos hle, QHash.find_erase]
          have hne : e.name ≠ entry.name := by
            intro hn
            have hc := h.registered clientId entry hf hle
            rw [← hn, hold] at hc
            exact hid (Option.some.inj hc)
          rw [if_neg hne]
          exact hold
        · rw [if_neg hle]; exact hold

theorem tinv_onIncomingConnection (s : ChatServer) (h : TableInv s) :
    TableInv (onIncomingConnection s).1 := by
  unfold onIncomingConnection
  by_cases h0 : s.m_connectionLimit = 0
  · rw [if_pos h0]; exact h
  · rw [if_neg h0]
    refine ⟨QHash.nodup_keys_insert _ _ _ h.nodup, ?_, ?_⟩
    · intro id e he
      have he' : QHash.find (QHash.insert s.m_clients s.m_nextClientId
          { name := [], worker := true, thread := true, loggedIn := false }) id = some e := he
      rw [QHash.find_insert] at he'
      by_cases hid : id = s.m_nextClientId
      · rw [if_pos hid] at he'
        rw [← Option.some.inj he']
      · rw [if_neg hid] at he'
        exact h.workers id e he'
    · intro id e he hl
      have he' : QHash.find (QHash.insert s.m_clients s.m_nextClientId
          { name := [], worker := true, thread := true, loggedIn := false }) id = some e := he
      rw [QHash.find_insert] at he'
      by_cases hid : id = s.m_nextClientId
      · rw [if_pos hid] at he'
        rw [← Option.some.inj he'] at hl
        exact Bool.noConfusion hl
      · rw [if_neg hid] at he'
        exact h.registered id e he' hl

theorem tinv_loggedInState (s : ChatServer) (clientId : Nat) (client : ClientEntry)
    (name : QString) (h : TableInv s) (hf : QHash.find s.m_clients clientId = some client)
    (hn : QHash.contains s.m_nameToId name = false) :
    TableInv (loggedInState s clientId name) := by
  have hnone : QHash.find s.m_nameToId name = none := by
    unfold QHash.contains at hn
    cases hx : QHash.find s.m_nameToId name with
    | none => rfl
    | some v => rw [hx] at hn; exact Bool.noConfusion hn
  refine ⟨?_, ?_, ?_⟩
  · show (QHash.keys (QHash.modify s.m_clients clientId
        (fun c => { c with name := name, loggedIn := true }))).Nodup
    rw [QHash.keys_modify]; exact h.nodup
  · intro id e he
    have he' : QHash.find (QHash.modify s.m_clients clientId
        (fun c => { c with name := name, loggedIn := true })) id = some e := he
    rw [QHash.find_modify] at he'
    by_cases hid : id = clientId
    · rw [if_pos hid, hid, hf] at he'
      rw [← Option.some.inj he']
      exact h.workers clientId client hf
    · rw [if_neg hid] at he'
      exact h.workers id e he'
  · intro id e he hl
    have he' : QHash.find (QHash.modify s.m_clients clientId
        (fun c => { c with name := name, loggedIn := true })) id = some e := he
    rw [QHash.find_modify] at he'
    show QHash.find (QHash.insert s.m_nameToId name clientId) e.name = some id
    rw [QHash.find_insert]
    by_cases hid : id = clientId
    · rw [if_pos hid, hid, hf] at he'
      have hname : e.name = name := by rw [← Option.some.inj he']
      rw [if_pos hname, hid]
    · rw [if_neg hid] at he'
      have hold := h.registered id e he' hl
      have hname : e.name ≠ name := by
        intro hx
        rw [hx, hnone] at hold
        exact Option.noConfusion hold
      rw [if_neg hname]
      exact hold

theorem tinv_onClientLine (lib : QtLib) (s : ChatServer) (clientId : Nat)
    (line : QByteArray) (now : QString) (h : TableInv s) :
    TableInv (onClientLine lib s clientId line now).1 := by
  rw [onClientLine_fst]
  cases hf : QHash.find s.m_clients clientId with
  | none => exact h
  | some client =>
    cases hj : lib.fromJson line with
    | none => exact h
    | some obj =>
      show TableInv (if acceptsLogin s client obj then _ else s)
      by_cases ha : acceptsLogin s client obj = true
      · rw [if_pos ha]
        unfold acceptsLogin at ha
        simp only [Bool.and_eq_true, Bool.not_eq_true', decide_eq_true_eq] at ha
        exact tinv_loggedInState s clientId client _ h hf ha.2
      · rw [if_neg ha]; exact h

theorem tinv_removeAll (lib : QtLib) (now : QString) (ids : List Nat)
    (acc : ChatServer × List Effect) (h : TableInv acc.1) :
    TableInv (removeAll lib now ids acc).1 := by
  induction ids generalizing acc with
  | nil => exact h
  | cons id ids ih =>
    unfold removeAll
    exact ih _ (tinv_removeClient lib acc.1 id false now h)

theorem tinv_stop (lib : QtLib) (s : ChatServer) (now : QString) (h : TableInv s) :
    TableInv (stop lib s now).1 := by
  unfold stop
  by_cases hc : (!s.isRunning && s.m_clients.isEmpty) = true
  · rw [if_pos hc]; exact h
  · rw [if_neg hc]
    have h1 : TableInv ({ s with m_stopping := true, isListening := false } : ChatServer) :=
      h.carry rfl rfl
    have h2 := tinv_removeAll lib now
      (QHash.keys ({ s with m_stopping := true, isListening := false } : ChatServer).m_clients)
      ({ s with m_stopping := true, isListening := false }, []) h1
    exact h2.carry rfl rfl

theorem tinv_start (lib : QtLib) (s : ChatServer) (listenOk : Bool) (now : QString)
    (h : TableInv s) : TableInv (start lib s listenOk now).1 := by
  unfold start
  cases listenOk with
  | true => exact (tinv_stop lib s now h).carry rfl rfl
  | false => exact tinv_stop lib s now h

theorem onIncomingConnection_stopping (s : ChatServer) :
    (onIncomingConnection s).1.m_stopping = s.m_stopping := by
  unfold onIncomingConnection
  by_cases h0 : s.m_connectionLimit = 0
  · rw [if_pos h0]
  · rw [if_neg h0]

theorem onClientLine_stopping (lib : QtLib) (s : ChatServer) (clientId : Nat)
    (line : QByteArray) (now : QString) :
    (onClientLine lib s clientId line now).1.m_stopping = s.m_stopping := by
  rw [onClientLine_fst]
  cases QHash.find s.m_clients clientId with
  | none => rfl
  | some client =>
    cases lib.fromJson line with
    | none => rfl
    | some obj =>
      show (if acceptsLogin s client obj then _ else s).m_stopping = s.m_stopping
      by_cases ha : acceptsLogin s client obj = true
      · rw [if_pos ha]; rfl
      · rw [if_neg ha]

theorem removeClient_stopping (lib : QtLib) (s : ChatServer) (clientId : Nat)
    (announce : Bool) (now : QString) :
    (removeClient lib s clientId announce now).1.m_stopping = s.m_stopping := by
  rw [removeClient_fst]
  cases QHash.find s.m_clients clientId <;> rfl

end ChatServer

/-- Every reachable state satisfies the invariant of all runs and is not inside a mass
shutdown. -/
theorem reachable_tinv (lib : QtLib) (s : ChatServer) (h : Reachable lib s) :
    TableInv s ∧ s.m_stopping = false := by
  induction h with
  | init => exact ⟨tinv_initial, rfl⟩
  | start s ok now _ ih =>
    exact ⟨ChatServer.tinv_start lib s ok now ih.1, ChatServer.start_stopping lib s ok now ih.2⟩
  | stop s now _ ih =>
    exact ⟨ChatServer.tinv_stop lib s now ih.1, ChatServer.stop_stopping lib s now ih.2⟩
  | incoming s _ ih =>
    exact ⟨ChatServer.tinv_onIncomingConnection s ih.1,
      (ChatServer.onIncomingConnection_stopping s).trans ih.2⟩
  | line s c l now _ ih =>
    exact ⟨ChatServer.tinv_onClientLine lib s c l now ih.1,
      (ChatServer.onClientLine_stopping lib s c l now).trans ih.2⟩
  | disconnected s c now _ ih =>
    exact ⟨ChatServer.tinv_removeClient lib s c _ now ih.1,
      (ChatServer.removeClient_stopping lib s c _ now).trans ih.2⟩

theorem ReachableFresh.reachable (lib : QtLib) (s : ChatServer) (h : ReachableFresh lib s) :
    Reachable lib s := by
  induction h with
  | init => exact Reachable.init
  | start s ok now _ ih => exact Reachable.start s ok now ih
  | stop s now _ ih => exact Reachable.stop s now ih
  | incoming s _ _ ih => exact Reachable.incoming s ih
  | line s c l now _ ih => exact Reachable.line s c l now ih
  | disconnected s c now _ ih => exact Reachable.disconnected s c now ih

/-! ## What a handler queues -/

theorem sentTo_append (c : Nat) (xs ys : List Effect) :
    sentTo c (xs ++ ys) = sentTo c xs ++ sentTo c ys := by
  induction xs with
  | nil => rfl
  | cons x xs ih =>
    cases x with
    | sendLine id obj =>
      show (if id = c then obj :: sentTo c (xs ++ ys) else sentTo c (xs ++ ys)) =
        (if id = c then obj :: sentTo c xs else sentTo c xs) ++ sentTo c ys
      rw [ih]
      by_cases h : id = c
      · rw [if_pos h, if_pos h]; rfl
      · rw [if_neg h, if_neg h]
    | disconnectFromHost id => exact ih
    | log => exact ih
    | runningChanged b => exact ih
    | usersChanged us => exact ih

theorem disconnectsOf_append (xs ys : List Effect) :
    disconnectsOf (xs ++ ys) = disconnectsOf xs ++ disconnectsOf ys := by
  induction xs with
  | nil => rfl
  | cons x xs ih =>
    cases x with
    | sendLine id obj => exact ih
    | disconnectFromHost id =>
      show id :: disconnectsOf (xs ++ ys) = id :: disconnectsOf xs ++ disconnectsOf ys
      rw [ih]; rfl
    | log => exact ih
    | runningChanged b => exact ih
    | usersChanged us => exact ih

theorem allSends_append (xs ys : List Effect) :
    allSends (xs ++ ys) = allSends xs ++ allSends ys := by
  induction xs with
  | nil => rfl
  | cons x xs ih =>
    cases x with
    | sendLine id obj =>
      show (id, obj) :: allSends (xs ++ ys) = (id, obj) :: allSends xs ++ allSends ys
      rw [ih]; rfl
    | disconnectFromHost id => exact ih
    | log => exact ih
    | runningChanged b => exact ih
    | usersChanged us => exact ih

namespace ChatServer

theorem sendJson_tracked (s : ChatServer) (clientId : Nat) (obj : QJsonObject)
    (e : ClientEntry) (hf : QHash.find s.m_clients clientId = some e)
    (hw : e.worker = true) :
    sendJson s clientId obj = [Effect.log, Effect.sendLine clientId obj] := by
  unfold sendJson
  rw [hf]
  simp [hw]

theorem broadcastJson_eq (s : ChatServer) (obj : QJsonObject) :
    broadcastJson s obj 0 = s.m_clients.flatMap (broadcastStep obj) := rfl

theorem broadcastStep_eq (obj : QJsonObject) (it : Nat × ClientEntry) :
    broadcastStep obj it =
      if it.2.loggedIn && it.2.worker then [Effect.log, Effect.sendLine it.1 obj] else [] := by
  unfold broadcastStep
  cases it.2.loggedIn <;> cases it.2.worker <;> rfl

theorem flatMap_cons_eq (f : Nat × ClientEntry → List Effect) (p : Nat × ClientEntry)
    (m : List (Nat × ClientEntry)) : List.flatMap (p :: m) f = f p ++ List.flatMap m f := by
  simp [List.flatMap]

theorem sentTo_flatMap_absent (obj : QJsonObject) (c : Nat) (m : QHash Nat ClientEntry)
    (h : c ∉ QHash.keys m) : sentTo c (List.flatMap m (broadcastStep obj)) = [] := by
  induction m with
  | nil => rfl
  | cons p m ih =>
    have h1 : p.1 ≠ c := fun e => h (by simp [QHash.keys, e])
    have h2 : c ∉ QHash.keys m := fun e => h (by simp [QHash.keys] at e ⊢; exact Or.inr e)
    rw [flatMap_cons_eq, sentTo_append, ih h2, broadcastStep_eq]
    by_cases hb : (p.2.loggedIn && p.2.worker) = true
    · rw [if_pos hb]; simp [sentTo, h1]
    · rw [if_neg hb]; rfl

theorem sentTo_flatMap (obj : QJsonObject) (c : Nat) (m : QHash Nat ClientEntry)
    (hn : (QHash.keys m).Nodup) :
    sentTo c (List.flatMap m (broadcastStep obj)) =
      match QHash.find m c with
      | some e => if e.loggedIn && e.worker then [obj] else []
      | none => [] := by
  induction m with
  | nil => rfl
  | cons p m ih =>
    obtain ⟨a, v⟩ := p
    have hn' : a ∉ QHash.keys m ∧ (QHash.keys m).Nodup := by
      simpa [QHash.keys] using hn
    rw [flatMap_cons_eq, sentTo_append, QHash.find_cons, broadcastStep_eq]
    by_cases hac : a = c
    · rw [if_pos hac, sentTo_flatMap_absent obj c m (hac ▸ hn'.1)]
      by_cases hb : (v.loggedIn && v.worker) = true
      · simp [hb, sentTo, hac]
      · simp [hb, sentTo]
    · rw [if_neg hac, ih hn'.2]
      by_cases hb : (v.loggedIn && v.worker) = true
      · simp [hb, sentTo, hac]
      · simp [hb, sentTo]

theorem sentTo_broadcastJson (s : ChatServer) (obj : QJsonObject) (c : Nat)
    (hn : (QHash.keys s.m_clients).Nodup) :
    sentTo c (broadcastJson s obj 0) =
      match QHash.find s.m_clients c with
      | some e => if e.loggedIn && e.worker then [obj] else []
      | none => [] := by
  rw [broadcastJson_eq]
  exact sentTo_flatMap obj c s.m_clients hn

theorem disconnectsOf_broadcastJson (s : ChatServer) (obj : QJsonObject) :
    disconnectsOf (broadcastJson s obj 0) = [] := by
  rw [broadcastJson_eq]
  induction s.m_clients with
  | nil => rfl
  | cons p m ih =>
    rw [flatMap_cons_eq, disconnectsOf_append, ih, broadcastStep_eq]
    by_cases hb : (p.2.loggedIn && p.2.worker) = true
    · rw [if_pos hb]; rfl
    · rw [if_neg hb]; rfl

theorem disconnectsOf_sendJson (s : ChatServer) (clientId : Nat) (obj : QJsonObject) :
    disconnectsOf (sendJson s clientId obj) = [] := by
  unfold sendJson
  cases QHash.find s.m_clients clientId with
  | none => rfl
  | some e =>
    obtain ⟨n, w, t, l⟩ := e
    cases w <;> rfl

end ChatServer

/-! ## The branches of `onClientLine` -/

namespace ChatServer

theorem onClientLine_decoded (lib : QtLib) (s : ChatServer) (clientId : Nat)
    (line : QByteArray) (now : QString) (client : ClientEntry) (obj : QJsonObject)
    (hf : QHash.find s.m_clients clientId = some client) (hj : lib.fromJson line = some obj) :
    onClientLine lib s clientId line now = handleObject lib s clientId client obj now := by
  unfold onClientLine
  rw [hf]
  dsimp only
  rw [hj]

theorem handleObject_not_logged_in (lib : QtLib) (s : ChatServer) (clientId : Nat)
    (client : ClientEntry) (obj : QJsonObject) (now : QString)
    (hE : (obj.value (qstr "type")).toString.isEmpty = false)
    (hT : (obj.value (qstr "type")).toString ≠ qstr "login")
    (hl : client.loggedIn = false) :
    handleObject lib s clientId client obj now =
      (s, Effect.log :: sendJson s clientId (errorMessage "not logged in")) := by
  unfold handleObject
  dsimp only
  rw [if_neg (show ¬ (obj.value (qstr "type")).toString.isEmpty = true by rw [hE]; decide),
    if_neg hT, if_pos (show (!client.loggedIn) = true by rw [hl]; rfl)]

theorem handleObject_chat (lib : QtLib) (s : ChatServer) (clientId : Nat)
    (client : ClientEntry) (obj : QJsonObject) (now : QString)
    (hT : (obj.value (qstr "type")).toString = qstr "chat")
    (hl : client.loggedIn = true)
    (hv : Protocol.isValidMessage
      (Protocol.normalizeText (obj.value (qstr "text")).toString) = true) :
    handleObject lib s clientId client obj now =
      (s, Effect.log :: (broadcastJson s
        (chatMessage client.name (Protocol.normalizeText (obj.value (qstr "text")).toString)
          now) 0 ++ [Effect.log])) := by
  unfold handleObject
  dsimp only
  rw [hT, if_neg (show ¬ (qstr "chat").isEmpty = true by decide),
    if_neg (show ¬ qstr "chat" = qstr "login" by decide),
    if_neg (show ¬ (!client.loggedIn) = true by rw [hl]; decide), if_pos rfl,
    if_neg (show ¬ (!Protocol.isValidMessage
      (Protocol.normalizeText (obj.value (qstr "text")).toString)) = true by rw [hv]; decide)]

theorem handleObject_private (lib : QtLib) (s : ChatServer) (clientId : Nat)
    (client : ClientEntry) (obj : QJsonObject) (now : QString)
    (hT : (obj.value (qstr "type")).toString = qstr "private")
    (hl : client.loggedIn = true)
    (hn : Protocol.isValidName
      (Protocol.normalizeName (obj.value (qstr "to")).toString) = true)
    (hv : Protocol.isValidMessage
      (Protocol.normalizeText (obj.value (qstr "text")).toString) = true) :
    handleObject lib s clientId client obj now =
      match QHash.find s.m_nameToId
          (Protocol.normalizeName (obj.value (qstr "to")).toString) with
      | none =>
        (s, Effect.log :: sendJson s clientId (systemMessage now
          (qstr "user not found: " ++
            Protocol.normalizeName (obj.value (qstr "to")).toString)))
      | some destId =>
        (s, Effect.log ::
          (sendJson s destId
              (privateMessage client.name
                (Protocol.normalizeName (obj.value (qstr "to")).toString)
                (Protocol.normalizeText (obj.value (qstr "text")).toString) now) ++
            sendJson s clientId
              (privateMessage client.name
                (Protocol.normalizeName (obj.value (qstr "to")).toString)
                (Protocol.normalizeText (obj.value (qstr "text")).toString) now) ++
            [Effect.log])) := by
  unfold handleObject
  dsimp only
  rw [hT, if_neg (show ¬ (qstr "private").isEmpty = true by decide),
    if_neg (show ¬ qstr "private" = qstr "login" by decide),
    if_neg (show ¬ (!client.loggedIn) = true by rw [hl]; decide),
    if_neg (show ¬ qstr "private" = qstr "chat" by decide), if_pos rfl,
    if_neg (show ¬ (!Protocol.isValidName
        (Protocol.normalizeName (obj.value (qstr "to")).toString) ||
      !Protocol.isValidMessage
        (Protocol.normalizeText (obj.value (qstr "text")).toString)) = true by
      rw [hn, hv]; decide)]

theorem handleObject_logout (lib : QtLib) (s : ChatServer) (clientId : Nat)
    (client : ClientEntry) (obj : QJsonObject) (now : QString)
    (hT : (obj.value (qstr "type")).toString = qstr "logout")
    (hl : client.loggedIn = true) :
    handleObject lib s clientId client obj now =
      (s, Effect.log :: scheduleDisconnect clientId client) := by
  unfold handleObject
  dsimp only
  rw [hT, if_neg (show ¬ (qstr "logout").isEmpty = true by decide),
    if_neg (show ¬ qstr "logout" = qstr "login" by decide),
    if_neg (show ¬ (!client.loggedIn) = true by rw [hl]; decide),
    if_neg (show ¬ qstr "logout" = qstr "chat" by decide),
    if_neg (show ¬ qstr "logout" = qstr "private" by decide), if_pos rfl]

end ChatServer

/-! ## Validation and delivery helpers -/

theorem Protocol.isValidName_iff (name : QString) :
    Protocol.isValidName name = true ↔ 1 ≤ name.length ∧ name.length ≤ 20 := by
  unfold Protocol.isValidName Protocol.kMaxNameLength
  cases name with
  | nil => simp
  | cons a l => simp

theorem Protocol.isValidMessage_iff (text : QString) :
    Protocol.isValidMessage text = true ↔ 1 ≤ text.length ∧ text.length ≤ 500 := by
  unfold Protocol.isValidMessage Protocol.kMaxMessageLength
  cases text with
  | nil => simp
  | cons a l => simp

namespace ChatServer

theorem allSends_sendJson (s : ChatServer) (clientId : Nat) (obj : QJsonObject)
    (e : ClientEntry) (hf : QHash.find s.m_clients clientId = some e)
    (hw : e.worker = true) :
    allSends (sendJson s clientId obj) = [(clientId, obj)] := by
  rw [sendJson_tracked s clientId obj e hf hw]
  rfl

theorem sentTo_broadcastJson_logged (s : ChatServer) (obj : QJsonObject) (d : Nat)
    (e : ClientEntry) (hn : (QHash.keys s.m_clients).Nodup)
    (hf : QHash.find s.m_clients d = some e) (hl : e.loggedIn = true)
    (hw : e.worker = true) : sentTo d (broadcastJson s obj 0) = [obj] := by
  rw [sentTo_broadcastJson s obj d hn, hf]
  show (if (e.loggedIn && e.worker) = true then [obj] else []) = [obj]
  rw [hl, hw]
  rfl

theorem sentTo_broadcastJson_other (s : ChatServer) (obj : QJsonObject) (d : Nat)
    (hn : (QHash.keys s.m_clients).Nodup)
    (h : ∀ e, QHash.find s.m_clients d = some e → e.loggedIn = false) :
    sentTo d (broadcastJson s obj 0) = [] := by
  rw [sentTo_broadcastJson s obj d hn]
  cases hf : QHash.find s.m_clients d with
  | none => rfl
  | some e =>
    show (if (e.loggedIn && e.worker) = true then [obj] else []) = []
    rw [h e hf]
    rfl

end ChatServer

/-! ## Sessions that stay tracked -/

namespace ChatServer

theorem scheduleDisconnect_worker (clientId : Nat) (e : ClientEntry) (hw : e.worker = true) :
    scheduleDisconnect clientId e = [Effect.disconnectFromHost clientId] := by
  unfold scheduleDisconnect
  rw [if_pos hw]

theorem find_removeClient_sub (lib : QtLib) (s : ChatServer) (clientId : Nat)
    (announce : Bool) (now : QString) (d : Nat) (e' : ClientEntry)
    (h : QHash.find (removeClient lib s clientId announce now).1.m_clients d = some e') :
    QHash.find s.m_clients d = some e' := by
  rw [removeClient_fst] at h
  cases hf : QHash.find s.m_clients clientId with
  | none => rw [hf] at h; exact h
  | some entry =>
    rw [hf] at h
    have h' : QHash.find (QHash.erase s.m_clients clientId) d = some e' := h
    rw [QHash.find_erase] at h'
    by_cases hd : d = clientId
    · rw [if_pos hd] at h'; exact Option.noConfusion h'
    · rw [if_neg hd] at h'; exact h'

theorem find_removeAll_sub (lib : QtLib) (now : QString) (ids : List Nat)
    (acc : ChatServer × List Effect) (d : Nat) (e' : ClientEntry)
    (h : QHash.find (removeAll lib now ids acc).1.m_clients d = some e') :
    QHash.find acc.1.m_clients d = some e' := by
  induction ids generalizing acc with
  | nil => exact h
  | cons id ids ih =>
    unfold removeAll at h
    exact find_removeClient_sub lib acc.1 id false now d e'
      (ih ((removeClient lib acc.1 id false now).1,
        acc.2 ++ (removeClient lib acc.1 id false now).2) h)

end ChatServer

/-! ## The roster and the teardown -/

namespace ChatServer

theorem mem_sortedInsert (lib : QtLib) (u x : QString) (l : List QString) :
    x ∈ sortedInsert lib u l ↔ x = u ∨ x ∈ l := by
  induction l with
  | nil => simp [sortedInsert]
  | cons v rest ih =>
    unfold sortedInsert
    by_cases h : caseInsensitiveLe lib u v = true
    · rw [if_pos h]; simp
    · rw [if_neg h, List.mem_cons, ih, List.mem_cons]
      constructor
      · rintro (h1 | h1 | h1)
        · exact Or.inr (Or.inl h1)
        · exact Or.inl h1
        · exact Or.inr (Or.inr h1)
      · rintro (h1 | h1 | h1)
        · exact Or.inr (Or.inl h1)
        · exact Or.inl h1
        · exact Or.inr (Or.inr h1)

theorem mem_sortCaseInsensitive (lib : QtLib) (x : QString) (l : List QString) :
    x ∈ sortCaseInsensitive lib l ↔ x ∈ l := by
  induction l with
  | nil => simp [sortCaseInsensitive]
  | cons u rest ih =>
    unfold sortCaseInsensitive
    rw [mem_sortedInsert, ih, List.mem_cons]

theorem mem_currentUsers (lib : QtLib) (s : ChatServer) (x : QString) :
    x ∈ currentUsers lib s ↔ ∃ p ∈ s.m_clients, p.2.loggedIn = true ∧ p.2.name = x := by
  unfold currentUsers
  rw [mem_sortCaseInsensitive, List.mem_map]
  constructor
  · rintro ⟨p, hp, hx⟩
    rw [List.mem_filter] at hp
    exact ⟨p, hp.1, hp.2, hx⟩
  · rintro ⟨p, hp, hl, hx⟩
    exact ⟨p, List.mem_filter.2 ⟨hp, hl⟩, hx⟩

theorem removeClient_clients (lib : QtLib) (s : ChatServer) (clientId : Nat)
    (announce : Bool) (now : QString) (entry : ClientEntry)
    (hf : QHash.find s.m_clients clientId = some entry) :
    (removeClient lib s clientId announce now).1.m_clients =
      QHash.erase s.m_clients clientId := by
  rw [removeClient_fst, hf]

theorem removeClient_snd (lib : QtLib) (s : ChatServer) (clientId : Nat)
    (announce : Bool) (now : QString) (entry : ClientEntry)
    (hf : QHash.find s.m_clients clientId = some entry) :
    (removeClient lib s clientId announce now).2 =
      (if entry.loggedIn && announce then
        broadcastJson (removeClient lib s clientId announce now).1
            (systemMessage now (entry.name ++ qstr " left")) 0 ++
          broadcastUsers lib (removeClient lib s clientId announce now).1
      else []) ++ scheduleDisconnect clientId entry := by
  unfold removeClient
  simp only [hf]
  obtain ⟨n, w, t, l⟩ := entry
  cases l <;> rfl

end ChatServer

/-! ## The concrete server is reachable -/

theorem demoOne_reachable : Reachable demoLib demoOne :=
  Reachable.line _ 1 _ _ (Reachable.incoming _ (Reachable.incoming _ (Reachable.incoming _
    (Reachable.start _ true [] Reachable.init))))

theorem demoRoom_reachable : Reachable demoLib demoRoom :=
  Reachable.line _ 2 _ _ demoOne_reachable

/-- C5: in a reachable state, a chat request from a logged-in connection `c` whose
trimmed text has length in [1,500] queues one and the same message (type `chat`, scope
`broadcast`, `from` the registered name of `c`, `text` the trimmed text, `time` the time
read once) to every logged-in connection, `c` included, exactly once, queues nothing to
a connection that is not logged in or not tracked, schedules no disconnect and leaves
the state unchanged. -/
theorem chat_broadcast (lib : QtLib) (s : ChatServer) (c : Nat) (line : QByteArray)
    (now : QString) (e : ClientEntry) (obj : QJsonObject)
    (hr : Reachable lib s)
    (hf : QHash.find s.m_clients c = some e) (hl : e.loggedIn = true)
    (hj : lib.fromJson line = some obj)
    (hT : (obj.value (qstr "type")).toString = qstr "chat")
    (hlen : 1 ≤ ((obj.value (qstr "text")).toString).trimmed.length ∧
      ((obj.value (qstr "text")).toString).trimmed.length ≤ 500) :
    (∀ (d : Nat) (e' : ClientEntry), QHash.find s.m_clients d = some e' →
      e'.loggedIn = true →
      sentTo d (ChatServer.onClientLine lib s c line now).2 =
        [[(qstr "type", QJsonValue.string (qstr "chat")),
          (qstr "scope", QJsonValue.string (qstr "broadcast")),
          (qstr "from", QJsonValue.string e.name),
          (qstr "text", QJsonValue.string ((obj.value (qstr "text")).toString).trimmed),
          (qstr "time", QJsonValue.string now)]]) ∧
    (∀ d : Nat, (∀ e', QHash.find s.m_clients d = some e' → e'.loggedIn = false) →
      sentTo d (ChatServer.onClientLine lib s c line now).2 = []) ∧
    disconnectsOf (ChatServer.onClientLine lib s c line now).2 = [] ∧
    (ChatServer.onClientLine lib s c line now).1 = s := by
  have hi := (reachable_tinv lib s hr).1
  have hv : Protocol.isValidMessage
      (Protocol.normalizeText (obj.value (qstr "text")).toString) = true :=
    (Protocol.isValidMessage_iff _).2 hlen
  rw [ChatServer.onClientLine_decoded lib s c line now e obj hf hj,
    ChatServer.handleObject_chat lib s c e obj now hT hl hv]
  refine ⟨?_, ?_, ?_, rfl⟩
  · intro d e' hd hl'
    show sentTo d (ChatServer.broadcastJson s _ 0 ++ [Effect.log]) = _
    rw [sentTo_append,
      ChatServer.sentTo_broadcastJson_logged s _ d e' hi.nodup hd hl' (hi.workers d e' hd)]
    rfl
  · intro d hnot
    show sentTo d (ChatServer.broadcastJson s _ 0 ++ [Effect.log]) = _
    rw [sentTo_append, ChatServer.sentTo_broadcastJson_other s _ d hi.nodup hnot]
    rfl
  · show disconnectsOf (ChatServer.broadcastJson s _ 0 ++ [Effect.log]) = _
    rw [disconnectsOf_append, ChatServer.disconnectsOf_broadcastJson]
    rfl

/-- In the example room, connection 1 (`a`) says `hi`: connections 1 and 2 get the
message, connection 3, not logged in, gets nothing. -/
theorem chat_broadcast_witness :
    Reachable demoLib demoRoom ∧
    sentTo 1 (ChatServer.onClientLine demoLib demoRoom 1 (67 :: qstr " hi ") (qstr "t3")).2 =
      [chatMessage (qstr "a") (qstr "hi") (qstr "t3")] ∧
    sentTo 2 (ChatServer.onClientLine demoLib demoRoom 1 (67 :: qstr " hi ") (qstr "t3")).2 =
      [chatMessage (qstr "a") (qstr "hi") (qstr "t3")] ∧
    sentTo 3 (ChatServer.onClientLine demoLib demoRoom 1 (67 :: qstr " hi ") (qstr "t3")).2 =
      [] :=
  have h := chat_broadcast demoLib demoRoom 1 (67 :: qstr " hi ") (qstr "t3")
    { name := qstr "a", worker := true, thread := true, loggedIn := true }
    [(qstr "type", QJsonValue.string (qstr "chat")),
     (qstr "text", QJsonValue.string (qstr " hi "))]
    demoRoom_reachable rfl rfl rfl rfl (by decide)
  ⟨demoRoom_reachable,
   h.1 1 { name := qstr "a", worker := true, thread := true, loggedIn := true } rfl rfl,
   h.1 2 { name := qstr "B", worker := true, thread := true, loggedIn := true } rfl rfl,
   h.2.1 3 (fun e' he' => by
     have : e' = { name := [], worker := true, thread := true, loggedIn := false } :=
       (Option.some.inj he').symm
     rw [this])⟩

/-- C6: in a reachable state, a private request from a logged-in connection `c` whose
trimmed target name `t` has length in [1,20] and is registered to the tracked connection
`d`, and whose trimmed text has length in [1,500], queues exactly two messages, first one to `d`
and then one to `c`, both the same object (type `chat`, scope `private`, `from` the name
of `c`, `to` `t`, the trimmed text, one time value); nothing is queued to anyone else,
no disconnect is scheduled and the state is unchanged. -/
theorem private_delivered (lib : QtLib) (s : ChatServer) (c d : Nat) (line : QByteArray)
    (now : QString) (e : ClientEntry) (obj : QJsonObject)
    (hr : Reachable lib s)
    (hf : QHash.find s.m_clients c = some e) (hl : e.loggedIn = true)
    (hj : lib.fromJson line = some obj)
    (hT : (obj.value (qstr "type")).toString = qstr "private")
    (ht : 1 ≤ ((obj.value (qstr "to")).toString).trimmed.length ∧
      ((obj.value (qstr "to")).toString).trimmed.length ≤ 20)
    (hlen : 1 ≤ ((obj.value (qstr "text")).toString).trimmed.length ∧
      ((obj.value (qstr "text")).toString).trimmed.length ≤ 500)
    (hd : QHash.find s.m_nameToId ((obj.value (qstr "to")).toString).trimmed = some d)
    (e' : ClientEntry) (hfd : QHash.find s.m_clients d = some e') :
    allSends (ChatServer.onClientLine lib s c line now).2 =
      [(d, [(qstr "type", QJsonValue.string (qstr "chat")),
            (qstr "scope", QJsonValue.string (qstr "private")),
            (qstr "from", QJsonValue.string e.name),
            (qstr "to", QJsonValue.string ((obj.value (qstr "to")).toString).trimmed),
            (qstr "text", QJsonValue.string ((obj.value (qstr "text")).toString).trimmed),
            (qstr "time", QJsonValue.string now)]),
       (c, [(qstr "type", QJsonValue.string (qstr "chat")),
            (qstr "scope", QJsonValue.string (qstr "private")),
            (qstr "from", QJsonValue.string e.name),
            (qstr "to", QJsonValue.string ((obj.value (qstr "to")).toString).trimmed),
            (qstr "text", QJsonValue.string ((obj.value (qstr "text")).toString).trimmed),
            (qstr "time", QJsonValue.string now)])] ∧
    disconnectsOf (ChatServer.onClientLine lib s c line now).2 = [] ∧
    (ChatServer.onClientLine lib s c line now).1 = s := by
  have hi := (reachable_tinv lib s hr).1
  have hw : e.worker = true := hi.workers c e hf
  have hn : Protocol.isValidName
      (Protocol.normalizeName (obj.value (qstr "to")).toString) = true :=
    (Protocol.isValidName_iff _).2 ht
  have hv : Protocol.isValidMessage
      (Protocol.normalizeText (obj.value (qstr "text")).toString) = true :=
    (Protocol.isValidMessage_iff _).2 hlen
  have hd' : QHash.find s.m_nameToId
      (Protocol.normalizeName (obj.value (qstr "to")).toString) = some d := hd
  have hw' : e'.worker = true := hi.workers d e' hfd
  rw [ChatServer.onClientLine_decoded lib s c line now e obj hf hj,
    ChatServer.handleObject_private lib s c e obj now hT hl hn hv, hd']
  refine ⟨?_, ?_, rfl⟩
  · show allSends (ChatServer.sendJson s d _ ++ ChatServer.sendJson s c _ ++ [Effect.log]) = _
    rw [allSends_append, allSends_append, ChatServer.allSends_sendJson s d _ e' hfd hw',
      ChatServer.allSends_sendJson s c _ e hf hw]
    rfl
  · show disconnectsOf (ChatServer.sendJson s d _ ++ ChatServer.sendJson s c _ ++
      [Effect.log]) = _
    rw [disconnectsOf_append, disconnectsOf_append, ChatServer.disconnectsOf_sendJson,
      ChatServer.disconnectsOf_sendJson]
    rfl

/-- In the example room, connection 1 (`a`) sends `yo` to `B`, the name of connection 2;
connection 3 gets nothing. -/
theorem private_delivered_witness :
    Reachable demoLib demoRoom ∧
    QHash.find demoRoom.m_nameToId (qstr "B") = some 2 ∧
    allSends (ChatServer.onClientLine demoLib demoRoom 1 (80 :: 66 :: qstr "yo")
        (qstr "t4")).2 =
      [(2, privateMessage (qstr "a") (qstr "B") (qstr "yo") (qstr "t4")),
       (1, privateMessage (qstr "a") (qstr "B") (qstr "yo") (qstr "t4"))] ∧
    sentTo 3 (ChatServer.onClientLine demoLib demoRoom 1 (80 :: 66 :: qstr "yo")
        (qstr "t4")).2 = [] :=
  ⟨demoRoom_reachable, rfl,
   (private_delivered demoLib demoRoom 1 2 (80 :: 66 :: qstr "yo") (qstr "t4")
      { name := qstr "a", worker := true, thread := true, loggedIn := true }
      [(qstr "type", QJsonValue.string (qstr "private")),
       (qstr "to", QJsonValue.string [66]), (qstr "text", QJsonValue.string (qstr "yo"))]
      demoRoom_reachable rfl rfl rfl rfl (by decide) (by decide) rfl
      { name := qstr "B", worker := true, thread := true, loggedIn := true } rfl).1,
   rfl⟩

/-- C7: in a reachable state, a private request from a logged-in connection `c` with
trimmed text of length in [1,500] whose trimmed target name `t` has length in [1,20] and
is not in the name registry queues exactly one message in all: to `c`, of type `system`
(not `error`), with text "user not found: t"; no disconnect is scheduled and the state is
unchanged. -/
theorem private_target_missing (lib : QtLib) (s : ChatServer) (c : Nat) (line : QByteArray)
    (now : QString) (e : ClientEntry) (obj : QJsonObject)
    (hr : Reachable lib s)
    (hf : QHash.find s.m_clients c = some e) (hl : e.loggedIn = true)
    (hj : lib.fromJson line = some obj)
    (hT : (obj.value (qstr "type")).toString = qstr "private")
    (ht : 1 ≤ ((obj.value (qstr "to")).toString).trimmed.length ∧
      ((obj.value (qstr "to")).toString).trimmed.length ≤ 20)
    (hlen : 1 ≤ ((obj.value (qstr "text")).toString).trimmed.length ∧
      ((obj.value (qstr "text")).toString).trimmed.length ≤ 500)
    (hd : QHash.find s.m_nameToId ((obj.value (qstr "to")).toString).trimmed = none) :
    allSends (ChatServer.onClientLine lib s c line now).2 =
      [(c, [(qstr "type", QJsonValue.string (qstr "system")),
            (qstr "text", QJsonValue.string
              (qstr "user not found: " ++ ((obj.value (qstr "to")).toString).trimmed)),
            (qstr "time", QJsonValue.string now)])] ∧
    disconnectsOf (ChatServer.onClientLine lib s c line now).2 = [] ∧
    (ChatServer.onClientLine lib s c line now).1 = s := by
  have hi := (reachable_tinv lib s hr).1
  have hw : e.worker = true := hi.workers c e hf
  have hn : Protocol.isValidName
      (Protocol.normalizeName (obj.value (qstr "to")).toString) = true :=
    (Protocol.isValidName_iff _).2 ht
  have hv : Protocol.isValidMessage
      (Protocol.normalizeText (obj.value (qstr "text")).toString) = true :=
    (Protocol.isValidMessage_iff _).2 hlen
  have hd' : QHash.find s.m_nameToId
      (Protocol.normalizeName (obj.value (qstr "to")).toString) = none := hd
  rw [ChatServer.onClientLine_decoded lib s c line now e obj hf hj,
    ChatServer.handleObject_private lib s c e obj now hT hl hn hv, hd']
  refine ⟨?_, ?_, rfl⟩
  · show allSends (ChatServer.sendJson s c _) = _
    rw [ChatServer.allSends_sendJson s c _ e hf hw]
    rfl
  · show disconnectsOf (ChatServer.sendJson s c _) = _
    rw [ChatServer.disconnectsOf_sendJson]

/-- In the example room, connection 1 (`a`) writes to `z`, a name nobody holds. -/
theorem private_target_missing_witness :
    Reachable demoLib demoRoom ∧
    QHash.find demoRoom.m_nameToId (qstr "z") = none ∧
    allSends (ChatServer.onClientLine demoLib demoRoom 1 (80 :: 122 :: qstr "yo")
        (qstr "t5")).2 =
      [(1, systemMessage (qstr "t5") (qstr "user not found: z"))] :=
  ⟨demoRoom_reachable, rfl,
   (private_target_missing demoLib demoRoom 1 (80 :: 122 :: qstr "yo") (qstr "t5")
      { name := qstr "a", worker := true, thread := true, loggedIn := true }
      [(qstr "type", QJsonValue.string (qstr "private")),
       (qstr "to", QJsonValue.string [122]), (qstr "text", QJsonValue.string (qstr "yo"))]
      demoRoom_reachable rfl rfl rfl rfl (by decide) (by decide) rfl).1⟩

/-- C8, as the code has it: in a reachable state, a logout request from a tracked
connection `c` changes nothing in the state (session table and name registry included).
When `c` is logged in it schedules a disconnect of `c`, and of no other connection, and
queues no message. When `c` is not logged in it schedules no disconnect: `c` is sent the
error "not logged in" and nothing else is queued. -/
theorem logout_request (lib : QtLib) (s : ChatServer) (c : Nat) (line : QByteArray)
    (now : QString) (e : ClientEntry) (obj : QJsonObject)
    (hr : Reachable lib s)
    (hf : QHash.find s.m_clients c = some e)
    (hj : lib.fromJson line = some obj)
    (hT : (obj.value (qstr "type")).toString = qstr "logout") :
    (ChatServer.onClientLine lib s c line now).1 = s ∧
    (e.loggedIn = true →
      disconnectsOf (ChatServer.onClientLine lib s c line now).2 = [c] ∧
      allSends (ChatServer.onClientLine lib s c line now).2 = []) ∧
    (e.loggedIn = false →
      disconnectsOf (ChatServer.onClientLine lib s c line now).2 = [] ∧
      allSends (ChatServer.onClientLine lib s c line now).2 =
        [(c, errorMessage "not logged in")]) := by
  have hi := (reachable_tinv lib s hr).1
  have hw : e.worker = true := hi.workers c e hf
  rw [ChatServer.onClientLine_decoded lib s c line now e obj hf hj]
  cases hl : e.loggedIn with
  | true =>
    rw [ChatServer.handleObject_logout lib s c e obj now hT hl,
      ChatServer.scheduleDisconnect_worker c e hw]
    exact ⟨rfl, fun _ => ⟨rfl, rfl⟩, fun h => Bool.noConfusion h⟩
  | false =>
    have hE : (obj.value (qstr "type")).toString.isEmpty = false := by rw [hT]; rfl
    have hN : (obj.value (qstr "type")).toString ≠ qstr "login" := by rw [hT]; decide
    rw [ChatServer.handleObject_not_logged_in lib s c e obj now hE hN hl]
    refine ⟨rfl, fun h => Bool.noConfusion h, fun _ => ⟨?_, ?_⟩⟩
    · show disconnectsOf (ChatServer.sendJson s c (errorMessage "not logged in")) = _
      rw [ChatServer.disconnectsOf_sendJson]
    · show allSends (ChatServer.sendJson s c (errorMessage "not logged in")) = _
      rw [ChatServer.allSends_sendJson s c _ e hf hw]

/-- In the example room, connection 1, logged in, logs out. -/
theorem logout_request_witness :
    Reachable demoLib demoRoom ∧
    (ChatServer.onClientLine demoLib demoRoom 1 [79] []).1 = demoRoom ∧
    disconnectsOf (ChatServer.onClientLine demoLib demoRoom 1 [79] []).2 = [1] ∧
    allSends (ChatServer.onClientLine demoLib demoRoom 1 [79] []).2 = [] :=
  have h := logout_request demoLib demoRoom 1 [79] []
    { name := qstr "a", worker := true, thread := true, loggedIn := true }
    [(qstr "type", QJsonValue.string (qstr "logout"))] demoRoom_reachable rfl rfl rfl
  ⟨demoRoom_reachable, h.1, (h.2.1 rfl).1, (h.2.1 rfl).2⟩

/-- C8 as stated fails: connection 3 of the example room is tracked and not logged in,
and its logout request schedules no disconnect; it is answered "not logged in". -/
theorem logout_before_login_counterexample :
    Reachable demoLib demoRoom ∧
    QHash.find demoRoom.m_clients 3 =
      some { name := [], worker := true, thread := true, loggedIn := false } ∧
    demoLib.fromJson [79] = some [(qstr "type", QJsonValue.string (qstr "logout"))] ∧
    disconnectsOf (ChatServer.onClientLine demoLib demoRoom 3 [79] []).2 = [] ∧
    allSends (ChatServer.onClientLine demoLib demoRoom 3 [79] []).2 =
      [(3, errorMessage "not logged in")] :=
  ⟨demoRoom_reachable, rfl, rfl, rfl, rfl⟩

namespace ChatServer

theorem removeClient_clients_erase (lib : QtLib) (s : ChatServer) (clientId : Nat)
    (announce : Bool) (now : QString) :
    (removeClient lib s clientId announce now).1.m_clients =
      QHash.erase s.m_clients clientId := by
  cases hf : QHash.find s.m_clients clientId with
  | none =>
    rw [removeClient_untracked lib s clientId announce now hf]
    exact (QHash.erase_of_not_mem _ _ ((QHash.find_eq_none_iff _ _).1 hf)).symm
  | some entry => exact removeClient_clients lib s clientId announce now entry hf

theorem find_after_removeClient (lib : QtLib) (s : ChatServer) (clientId : Nat)
    (announce : Bool) (now : QString) :
    QHash.find (removeClient lib s clientId announce now).1.m_clients clientId = none := by
  rw [removeClient_clients_erase, QHash.find_erase, if_pos rfl]

end ChatServer

/-- C11: `removeClient` is idempotent. In every state, for a client id that is not in the
session table and either value of `announce`, it returns the state as it was (session
table, name registry and permit count included) and produces no effect at all, so no
message. Hence in every state and for every id a second `removeClient` right after a
first one changes nothing and queues nothing: two calls leave the state and the queued
messages of one call. -/
theorem removeClient_idempotent (lib : QtLib) (s : ChatServer) (clientId : Nat) :
    (QHash.find s.m_clients clientId = none →
      ∀ (announce : Bool) (now : QString),
        ChatServer.removeClient lib s clientId announce now = (s, [])) ∧
    (∀ (announce announce' : Bool) (now now' : QString),
      (ChatServer.removeClient lib
        (ChatServer.removeClient lib s clientId announce now).1 clientId announce' now').1 =
        (ChatServer.removeClient lib s clientId announce now).1 ∧
      allSends ((ChatServer.removeClient lib s clientId announce now).2 ++
        (ChatServer.removeClient lib
          (ChatServer.removeClient lib s clientId announce now).1 clientId announce' now').2) =
        allSends (ChatServer.removeClient lib s clientId announce now).2 ∧
      (ChatServer.removeClient lib
        (ChatServer.removeClient lib s clientId announce now).1 clientId announce' now').2 =
        []) := by
  constructor
  · intro hf announce now
    exact ChatServer.removeClient_untracked lib s clientId announce now hf
  · intro announce announce' now now'
    have h := ChatServer.removeClient_untracked lib
      (ChatServer.removeClient lib s clientId announce now).1 clientId announce' now'
      (ChatServer.find_after_removeClient lib s clientId announce now)
    rw [h]
    exact ⟨rfl, by rw [List.append_nil], rfl⟩

/-- In the example room, connection 2 (`B`) is torn down twice, and connection 9, never
admitted, once. -/
theorem removeClient_idempotent_witness :
    QHash.find demoRoom.m_clients 9 = none ∧
    ChatServer.removeClient demoLib demoRoom 9 true (qstr "t7") = (demoRoom, []) ∧
    (ChatServer.removeClient demoLib
      (ChatServer.removeClient demoLib demoRoom 2 true (qstr "t7")).1 2 true (qstr "t8")).1 =
      (ChatServer.removeClient demoLib demoRoom 2 true (qstr "t7")).1 ∧
    (ChatServer.removeClient demoLib
      (ChatServer.removeClient demoLib demoRoom 2 true (qstr "t7")).1 2 true (qstr "t8")).2 =
      [] :=
  ⟨rfl,
   (removeClient_idempotent demoLib demoRoom 9).1 rfl true (qstr "t7"),
   ((removeClient_idempotent demoLib demoRoom 2).2 true true (qstr "t7") (qstr "t8")).1,
   ((removeClient_idempotent demoLib demoRoom 2).2 true true (qstr "t7") (qstr "t8")).2.2⟩

namespace ChatServer

theorem allSends_scheduleDisconnect (clientId : Nat) (e : ClientEntry) :
    allSends (scheduleDisconnect clientId e) = [] := by
  unfold scheduleDisconnect
  by_cases h : e.worker = true
  · rw [if_pos h]; rfl
  · rw [if_neg h]; rfl

theorem allSends_removeClient_silent (lib : QtLib) (s : ChatServer) (clientId : Nat)
    (now : QString) : allSends (removeClient lib s clientId false now).2 = [] := by
  cases hf : QHash.find s.m_clients clientId with
  | none => rw [removeClient_untracked lib s clientId false now hf]; rfl
  | some entry =>
    rw [removeClient_snd lib s clientId false now entry hf, Bool.and_false,
      if_neg Bool.false_ne_true, List.nil_append]
    exact allSends_scheduleDisconnect clientId entry

theorem allSends_removeAll (lib : QtLib) (now : QString) (ids : List Nat)
    (acc : ChatServer × List Effect) :
    allSends (removeAll lib now ids acc).2 = allSends acc.2 := by
  induction ids generalizing acc with
  | nil => rfl
  | cons id ids ih =>
    unfold removeAll
    rw [ih ((removeClient lib acc.1 id false now).1,
      acc.2 ++ (removeClient lib acc.1 id false now).2)]
    show allSends (acc.2 ++ (removeClient lib acc.1 id false now).2) = allSends acc.2
    rw [allSends_append, allSends_removeClient_silent, List.append_nil]

theorem find_removeAll_none (lib : QtLib) (now : QString) (ids : List Nat)
    (acc : ChatServer × List Effect) (k : Nat) (hk : k ∈ ids) :
    QHash.find (removeAll lib now ids acc).1.m_clients k = none := by
  induction ids generalizing acc with
  | nil => exact absurd hk (List.not_mem_nil _)
  | cons id ids ih =>
    unfold removeAll
    rcases List.mem_cons.1 hk with h | h
    · cases hx : QHash.find (removeAll lib now ids
          ((removeClient lib acc.1 id false now).1,
            acc.2 ++ (removeClient lib acc.1 id false now).2)).1.m_clients k with
      | none => rfl
      | some e =>
        have h1 := find_removeAll_sub lib now ids _ k e hx
        have h2 : QHash.find (removeClient lib acc.1 id false now).1.m_clients k =
            some e := h1
        rw [h, find_after_removeClient] at h2
        exact Option.noConfusion h2
    · exact ih _ h

theorem removeAll_keys_clients (lib : QtLib) (now : QString) (s : ChatServer) :
    (removeAll lib now (QHash.keys s.m_clients) (s, [])).1.m_clients = [] := by
  cases hm : (removeAll lib now (QHash.keys s.m_clients) (s, [])).1.m_clients with
  | nil => rfl
  | cons p rest =>
    obtain ⟨k, v⟩ := p
    have h1 : QHash.find (removeAll lib now (QHash.keys s.m_clients) (s, [])).1.m_clients k =
        some v := by
      rw [hm, QHash.find_cons, if_pos rfl]
    have h2 := find_removeAll_sub lib now _ (s, []) k v h1
    have h3 := find_removeAll_none lib now (QHash.keys s.m_clients) (s, []) k
      (QHash.find_some_mem _ _ _ h2)
    rw [h3] at h1
    exact Option.noConfusion h1

/-- What `stop()` leaves, in any state: not listening, no session, not stopping, and no
message queued. -/
theorem stop_result (lib : QtLib) (s : ChatServer) (now : QString) :
    (stop lib s now).1.isListening = false ∧ (stop lib s now).1.m_clients = [] ∧
    allSends (stop lib s now).2 = [] := by
  unfold stop
  by_cases hc : (!s.isRunning && s.m_clients.isEmpty) = true
  · rw [if_pos hc]
    simp only [Bool.and_eq_true, Bool.not_eq_true'] at hc
    refine ⟨hc.1, ?_, rfl⟩
    cases hm : s.m_clients with
    | nil => rfl
    | cons p rest => rw [hm] at hc; exact Bool.noConfusion hc.2
  · rw [if_neg hc]
    refine ⟨?_, ?_, ?_⟩
    · exact (removeAll_flags lib now _ _).2.1
    · exact removeAll_keys_clients lib now
        ({ s with m_stopping := true, isListening := false } : ChatServer)
    · show allSends ((removeAll lib now _ _).2 ++
        [Effect.usersChanged [], Effect.runningChanged false, Effect.log]) = []
      rw [allSends_append, allSends_removeAll]
      rfl

theorem stop_idle (lib : QtLib) (s : ChatServer) (now : QString)
    (h1 : s.isListening = false) (h2 : s.m_clients = []) : stop lib s now = (s, []) := by
  unfold stop
  have hc : (!s.isRunning && s.m_clients.isEmpty) = true := by
    unfold isRunning
    rw [h1, h2]
    rfl
  rw [if_pos hc]

end ChatServer

/-- C13, as the code has it: in every state, when binding the listening socket fails,
`start` returns false and leaves the state that `stop()`, which it runs first, leaves:
not running and without tracked sessions. The state after the call is the state before
it exactly when the server was not running and tracked no session. -/
theorem start_failed (lib : QtLib) (s : ChatServer) (now : QString) :
    (ChatServer.start lib s false now).2.2 = false ∧
    (ChatServer.start lib s false now).1 = (ChatServer.stop lib s now).1 ∧
    (ChatServer.start lib s false now).1.isRunning = false ∧
    (ChatServer.start lib s false now).1.m_clients = [] ∧
    ((ChatServer.start lib s false now).1 = s ↔
      (s.isRunning = false ∧ s.m_clients = [])) := by
  have hr := ChatServer.stop_result lib s now
  have hst : (ChatServer.start lib s false now).1 = (ChatServer.stop lib s now).1 := rfl
  refine ⟨rfl, hst, hr.1, hr.2.1, ?_⟩
  rw [hst]
  constructor
  · intro he
    have h1 := hr.1
    have h2 := hr.2.1
    rw [he] at h1 h2
    exact ⟨h1, h2⟩
  · rintro ⟨h1, h2⟩
    rw [ChatServer.stop_idle lib s now h1 h2]

/-- A failed `start` on the constructed server changes nothing; on the example room it
does what the counterexample below shows. -/
theorem start_failed_witness :
    (ChatServer.start demoLib ChatServer.initial false []).2.2 = false ∧
    (ChatServer.start demoLib ChatServer.initial false []).1 = ChatServer.initial :=
  ⟨(start_failed demoLib ChatServer.initial []).1,
   (start_failed demoLib ChatServer.initial []).2.2.2.2.2 ⟨rfl, rfl⟩⟩

/-- C13 as stated fails: the example room is running with three tracked sessions, two
names registered and 97 permits; a `start` whose bind fails returns false and leaves it
not running, with no session, no name and 100 permits. -/
theorem start_failed_counterexample :
    Reachable demoLib demoRoom ∧
    (ChatServer.start demoLib demoRoom false []).2.2 = false ∧
    demoRoom.isRunning = true ∧
    (ChatServer.start demoLib demoRoom false []).1.isRunning = false ∧
    demoRoom.m_clients.length = 3 ∧
    (ChatServer.start demoLib demoRoom false []).1.m_clients = [] ∧
    demoRoom.m_nameToId = [(qstr "B", 2), (qstr "a", 1)] ∧
    (ChatServer.start demoLib demoRoom false []).1.m_nameToId = [] ∧
    demoRoom.m_connectionLimit = 97 ∧
    (ChatServer.start demoLib demoRoom false []).1.m_connectionLimit = 100 :=
  ⟨demoRoom_reachable, rfl, rfl, rfl, rfl, rfl, rfl, rfl, rfl, rfl⟩

/-! ## Requests that are refused with an error -/

theorem QJsonValue.toString_of_not_string (v : QJsonValue)
    (h : ∀ t : QString, v = QJsonValue.string t → t = []) : v.toString = [] := by
  cases v with
  | string t => exact h t rfl
  | null => rfl
  | bool b => rfl
  | double bits => rfl
  | array items => rfl
  | object members => rfl
  | undefined => rfl

namespace ChatServer

theorem onClientLine_undecoded (lib : QtLib) (s : ChatServer) (clientId : Nat)
    (line : QByteArray) (now : QString) (client : ClientEntry)
    (hf : QHash.find s.m_clients clientId = some client) (hj : lib.fromJson line = none) :
    onClientLine lib s clientId line now =
      (s, Effect.log :: sendJson s clientId (errorMessage "invalid json")) := by
  unfold onClientLine
  rw [hf]
  dsimp only
  rw [hj]

theorem handleObject_missing_type (lib : QtLib) (s : ChatServer) (clientId : Nat)
    (client : ClientEntry) (obj : QJsonObject) (now : QString)
    (hE : (obj.value (qstr "type")).toString = []) :
    handleObject lib s clientId client obj now =
      (s, Effect.log :: sendJson s clientId (errorMessage "missing type")) := by
  unfold handleObject
  dsimp only
  rw [hE, if_pos (show ([] : QString).isEmpty = true from rfl)]

theorem handleObject_unknown (lib : QtLib) (s : ChatServer) (clientId : Nat)
    (client : ClientEntry) (obj : QJsonObject) (now : QString)
    (hE : (obj.value (qstr "type")).toString ≠ [])
    (h1 : (obj.value (qstr "type")).toString ≠ qstr "login")
    (h2 : (obj.value (qstr "type")).toString ≠ qstr "chat")
    (h3 : (obj.value (qstr "type")).toString ≠ qstr "private")
    (h4 : (obj.value (qstr "type")).toString ≠ qstr "logout")
    (hl : client.loggedIn = true) :
    handleObject lib s clientId client obj now =
      (s, Effect.log :: sendJson s clientId (errorMessage "unknown type")) := by
  have hE' : ¬ (obj.value (qstr "type")).toString.isEmpty = true := by
    intro h
    exact hE (List.isEmpty_iff.1 h)
  unfold handleObject
  dsimp only
  rw [if_neg hE', if_neg h1,
    if_neg (show ¬ (!client.loggedIn) = true by rw [hl]; decide),
    if_neg h2, if_neg h3, if_neg h4]

theorem handleObject_chat_invalid (lib : QtLib) (s : ChatServer) (clientId : Nat)
    (client : ClientEntry) (obj : QJsonObject) (now : QString)
    (hT : (obj.value (qstr "type")).toString = qstr "chat")
    (hl : client.loggedIn = true)
    (hv : Protocol.isValidMessage
      (Protocol.normalizeText (obj.value (qstr "text")).toString) = false) :
    handleObject lib s clientId client obj now =
      (s, Effect.log :: sendJson s clientId (errorMessage "invalid message")) := by
  unfold handleObject
  dsimp only
  rw [hT, if_neg (show ¬ (qstr "chat").isEmpty = true by decide),
    if_neg (show ¬ qstr "chat" = qstr "login" by decide),
    if_neg (show ¬ (!client.loggedIn) = true by rw [hl]; decide), if_pos rfl,
    if_pos (show (!Protocol.isValidMessage
      (Protocol.normalizeText (obj.value (qstr "text")).toString)) = true by rw [hv]; rfl)]

theorem handleObject_private_invalid (lib : QtLib) (s : ChatServer) (clientId : Nat)
    (client : ClientEntry) (obj : QJsonObject) (now : QString)
    (hT : (obj.value (qstr "type")).toString = qstr "private")
    (hl : client.loggedIn = true)
    (hv : Protocol.isValidName
        (Protocol.normalizeName (obj.value (qstr "to")).toString) = false ∨
      Protocol.isValidMessage
        (Protocol.normalizeText (obj.value (qstr "text")).toString) = false) :
    handleObject lib s clientId client obj now =
      (s, Effect.log :: sendJson s clientId (errorMessage "invalid private message")) := by
  have hbad : (!Protocol.isValidName
        (Protocol.normalizeName (obj.value (qstr "to")).toString) ||
      !Protocol.isValidMessage
        (Protocol.normalizeText (obj.value (qstr "text")).toString)) = true := by
    rcases hv with h | h
    · rw [h]; rfl
    · rw [h, Bool.not_false, Bool.or_true]
  unfold handleObject
  dsimp only
  rw [hT, if_neg (show ¬ (qstr "private").isEmpty = true by decide),
    if_neg (show ¬ qstr "private" = qstr "login" by decide),
    if_neg (show ¬ (!client.loggedIn) = true by rw [hl]; decide),
    if_neg (show ¬ qstr "private" = qstr "chat" by decide), if_pos rfl, if_pos hbad]

/-- The outcome shared by the refusals that keep the connection open: one error reply, to
the sender, nothing else. -/
theorem error_reply_only (s : ChatServer) (c : Nat) (e : ClientEntry) (message : String)
    (hf : QHash.find s.m_clients c = some e) (hw : e.worker = true) :
    allSends (Effect.log :: sendJson s c (errorMessage message)) =
        [(c, errorMessage message)] ∧
    disconnectsOf (Effect.log :: sendJson s c (errorMessage message)) = [] := by
  constructor
  · show allSends (sendJson s c (errorMessage message)) = _
    rw [allSends_sendJson s c _ e hf hw]
  · show disconnectsOf (sendJson s c (errorMessage message)) = _
    rw [disconnectsOf_sendJson]

theorem isValidName_false_of (name : QString) (h : name.length = 0 ∨ 20 < name.length) :
    Protocol.isValidName name = false := by
  cases hx : Protocol.isValidName name with
  | false => rfl
  | true =>
    have h2 := (Protocol.isValidName_iff _).1 hx
    omega

theorem isValidMessage_false_of (text : QString)
    (h : text.length = 0 ∨ 500 < text.length) : Protocol.isValidMessage text = false := by
  cases hx : Protocol.isValidMessage text with
  | false => rfl
  | true =>
    have h2 := (Protocol.isValidMessage_iff _).1 hx
    omega

end ChatServer

/-- C14: in a reachable state, for a tracked connection `c`: a line that does not decode
to a JSON object is answered "invalid json"; an object whose `type` member is missing, not
a string or the empty string is answered "missing type"; when `c` is not logged in, a
non-empty type other than `login` is answered "not logged in"; when `c` is logged in, a
non-empty type other than `login`, `chat`, `private` and `logout` is answered "unknown
type". In each case that reply, of type `error`, is the only message queued and goes to
`c`, no disconnect is scheduled and the state is unchanged. -/
theorem protocol_errors (lib : QtLib) (s : ChatServer) (c : Nat) (e : ClientEntry)
    (hr : Reachable lib s) (hf : QHash.find s.m_clients c = some e) :
    (∀ (line : QByteArray) (now : QString), lib.fromJson line = none →
      allSends (ChatServer.onClientLine lib s c line now).2 =
        [(c, [(qstr "type", QJsonValue.string (qstr "error")),
              (qstr "message", QJsonValue.string (qstr "invalid json"))])] ∧
      disconnectsOf (ChatServer.onClientLine lib s c line now).2 = [] ∧
      (ChatServer.onClientLine lib s c line now).1 = s) ∧
    (∀ (line : QByteArray) (now : QString) (obj : QJsonObject),
      lib.fromJson line = some obj →
      (∀ t : QString, obj.value (qstr "type") = QJsonValue.string t → t = []) →
      allSends (ChatServer.onClientLine lib s c line now).2 =
        [(c, [(qstr "type", QJsonValue.string (qstr "error")),
              (qstr "message", QJsonValue.string (qstr "missing type"))])] ∧
      disconnectsOf (ChatServer.onClientLine lib s c line now).2 = [] ∧
      (ChatServer.onClientLine lib s c line now).1 = s) ∧
    (∀ (line : QByteArray) (now : QString) (obj : QJsonObject) (t : QString),
      lib.fromJson line = some obj → e.loggedIn = false →
      obj.value (qstr "type") = QJsonValue.string t → t ≠ [] → t ≠ qstr "login" →
      allSends (ChatServer.onClientLine lib s c line now).2 =
        [(c, [(qstr "type", QJsonValue.string (qstr "error")),
              (qstr "message", QJsonValue.string (qstr "not logged in"))])] ∧
      disconnectsOf (ChatServer.onClientLine lib s c line now).2 = [] ∧
      (ChatServer.onClientLine lib s c line now).1 = s) ∧
    (∀ (line : QByteArray) (now : QString) (obj : QJsonObject) (t : QString),
      lib.fromJson line = some obj → e.loggedIn = true →
      obj.value (qstr "type") = QJsonValue.string t → t ≠ [] → t ≠ qstr "login" →
      t ≠ qstr "chat" → t ≠ qstr "private" → t ≠ qstr "logout" →
      allSends (ChatServer.onClientLine lib s c line now).2 =
        [(c, [(qstr "type", QJsonValue.string (qstr "error")),
              (qstr "message", QJsonValue.string (qstr "unknown type"))])] ∧
      disconnectsOf (ChatServer.onClientLine lib s c line now).2 = [] ∧
      (ChatServer.onClientLine lib s c line now).1 = s) := by
  have hw : e.worker = true := (reachable_tinv lib s hr).1.workers c e hf
  refine ⟨?_, ?_, ?_, ?_⟩
  · intro line now hj
    rw [ChatServer.onClientLine_undecoded lib s c line now e hf hj]
    exact ⟨(ChatServer.error_reply_only s c e "invalid json" hf hw).1,
      (ChatServer.error_reply_only s c e "invalid json" hf hw).2, rfl⟩
  · intro line now obj hj hty
    rw [ChatServer.onClientLine_decoded lib s c line now e obj hf hj,
      ChatServer.handleObject_missing_type lib s c e obj now
        (QJsonValue.toString_of_not_string _ hty)]
    exact ⟨(ChatServer.error_reply_only s c e "missing type" hf hw).1,
      (ChatServer.error_reply_only s c e "missing type" hf hw).2, rfl⟩
  · intro line now obj t hj hl hty hne hlogin
    have hts : (obj.value (qstr "type")).toString = t := by rw [hty]; rfl
    have hE : (obj.value (qstr "type")).toString.isEmpty = false := by
      rw [hts]
      cases t with
      | nil => exact absurd rfl hne
      | cons a l => rfl
    rw [ChatServer.onClientLine_decoded lib s c line now e obj hf hj,
      ChatServer.handleObject_not_logged_in lib s c e obj now hE (by rw [hts]; exact hlogin)
        hl]
    exact ⟨(ChatServer.error_reply_only s c e "not logged in" hf hw).1,
      (ChatServer.error_reply_only s c e "not logged in" hf hw).2, rfl⟩
  · intro line now obj t hj hl hty hne h1 h2 h3 h4
    have hts : (obj.value (qstr "type")).toString = t := by rw [hty]; rfl
    rw [ChatServer.onClientLine_decoded lib s c line now e obj hf hj,
      ChatServer.handleObject_unknown lib s c e obj now (by rw [hts]; exact hne)
        (by rw [hts]; exact h1) (by rw [hts]; exact h2) (by rw [hts]; exact h3)
        (by rw [hts]; exact h4) hl]
    exact ⟨(ChatServer.error_reply_only s c e "unknown type" hf hw).1,
      (ChatServer.error_reply_only s c e "unknown type" hf hw).2, rfl⟩

/-- In the example room: connection 3 sends a line that does not decode, then a chat
before logging in; connection 1, logged in, sends a request of the unknown type `ping`. -/
theorem protocol_errors_witness :
    Reachable demoLib demoRoom ∧
    allSends (ChatServer.onClientLine demoLib demoRoom 3 (qstr "??") []).2 =
      [(3, errorMessage "invalid json")] ∧
    allSends (ChatServer.onClientLine demoLib demoRoom 3 (67 :: qstr "hi") []).2 =
      [(3, errorMessage "not logged in")] ∧
    allSends (ChatServer.onClientLine demoLib demoRoom 1 [88] []).2 =
      [(1, errorMessage "unknown type")] ∧
    (ChatServer.onClientLine demoLib demoRoom 1 [88] []).1 = demoRoom :=
  have h3 := protocol_errors demoLib demoRoom 3
    { name := [], worker := true, thread := true, loggedIn := false } demoRoom_reachable rfl
  have h1 := protocol_errors demoLib demoRoom 1
    { name := qstr "a", worker := true, thread := true, loggedIn := true }
    demoRoom_reachable rfl
  ⟨demoRoom_reachable,
   (h3.1 (qstr "??") [] rfl).1,
   (h3.2.2.1 (67 :: qstr "hi") []
      [(qstr "type", QJsonValue.string (qstr "chat")),
       (qstr "text", QJsonValue.string (qstr "hi"))] (qstr "chat") rfl rfl rfl
      (by decide) (by decide)).1,
   (h1.2.2.2 [88] [] [(qstr "type", QJsonValue.string (qstr "ping"))] (qstr "ping")
      rfl rfl rfl (by decide) (by decide) (by decide) (by decide) (by decide)).1,
   (h1.2.2.2 [88] [] [(qstr "type", QJsonValue.string (qstr "ping"))] (qstr "ping")
      rfl rfl rfl (by decide) (by decide) (by decide) (by decide) (by decide)).2.2⟩

/-- C15: in a reachable state, for a logged-in connection `c`: a chat request whose
trimmed text has length 0 or more than 500 is answered with exactly one message, the
error "invalid message", to `c`; a private request whose trimmed target name has length
0 or more than 20, or whose trimmed text has length 0 or more than 500, is answered with
exactly one message, the error "invalid private message", to `c`. In both cases nothing
else is queued, no disconnect is scheduled and the state is unchanged; so a valid chat
request of `c` handled right after the refusal is queued to every logged-in connection
as usual. -/
theorem invalid_message_refused (lib : QtLib) (s : ChatServer) (c : Nat) (e : ClientEntry)
    (hr : Reachable lib s) (hf : QHash.find s.m_clients c = some e)
    (hl : e.loggedIn = true) :
    (∀ (line : QByteArray) (now : QString) (obj : QJsonObject),
      lib.fromJson line = some obj →
      (obj.value (qstr "type")).toString = qstr "chat" →
      (((obj.value (qstr "text")).toString).trimmed.length = 0 ∨
        500 < ((obj.value (qstr "text")).toString).trimmed.length) →
      allSends (ChatServer.onClientLine lib s c line now).2 =
        [(c, [(qstr "type", QJsonValue.string (qstr "error")),
              (qstr "message", QJsonValue.string (qstr "invalid message"))])] ∧
      disconnectsOf (ChatServer.onClientLine lib s c line now).2 = [] ∧
      (ChatServer.onClientLine lib s c line now).1 = s) ∧
    (∀ (line : QByteArray) (now : QString) (obj : QJsonObject),
      lib.fromJson line = some obj →
      (obj.value (qstr "type")).toString = qstr "private" →
      (((obj.value (qstr "to")).toString).trimmed.length = 0 ∨
        20 < ((obj.value (qstr "to")).toString).trimmed.length ∨
        ((obj.value (qstr "text")).toString).trimmed.length = 0 ∨
        500 < ((obj.value (qstr "text")).toString).trimmed.length) →
      allSends (ChatServer.onClientLine lib s c line now).2 =
        [(c, [(qstr "type", QJsonValue.string (qstr "error")),
              (qstr "message", QJsonValue.string (qstr "invalid private message"))])] ∧
      disconnectsOf (ChatServer.onClientLine lib s c line now).2 = [] ∧
      (ChatServer.onClientLine lib s c line now).1 = s) ∧
    (∀ (line : QByteArray) (now : QString),
      (ChatServer.onClientLine lib s c line now).1 = s →
      ∀ (line' : QByteArray) (now' : QString) (obj' : QJsonObject),
      lib.fromJson line' = some obj' →
      (obj'.value (qstr "type")).toString = qstr "chat" →
      (1 ≤ ((obj'.value (qstr "text")).toString).trimmed.length ∧
        ((obj'.value (qstr "text")).toString).trimmed.length ≤ 500) →
      ∀ (d : Nat) (e' : ClientEntry), QHash.find s.m_clients d = some e' →
        e'.loggedIn = true →
        sentTo d (ChatServer.onClientLine lib
          (ChatServer.onClientLine lib s c line now).1 c line' now').2 =
          [chatMessage e.name ((obj'.value (qstr "text")).toString).trimmed now']) := by
  have hi := (reachable_tinv lib s hr).1
  have hw : e.worker = true := hi.workers c e hf
  refine ⟨?_, ?_, ?_⟩
  · intro line now obj hj hT hbad
    rw [ChatServer.onClientLine_decoded lib s c line now e obj hf hj,
      ChatServer.handleObject_chat_invalid lib s c e obj now hT hl
        (ChatServer.isValidMessage_false_of _ hbad)]
    exact ⟨(ChatServer.error_reply_only s c e "invalid message" hf hw).1,
      (ChatServer.error_reply_only s c e "invalid message" hf hw).2, rfl⟩
  · intro line now obj hj hT hbad
    have hv : Protocol.isValidName
          (Protocol.normalizeName (obj.value (qstr "to")).toString) = false ∨
        Protocol.isValidMessage
          (Protocol.normalizeText (obj.value (qstr "text")).toString) = false := by
      rcases hbad with h | h | h | h
      · exact Or.inl (ChatServer.isValidName_false_of _ (Or.inl h))
      · exact Or.inl (ChatServer.isValidName_false_of _ (Or.inr h))
      · exact Or.inr (ChatServer.isValidMessage_false_of _ (Or.inl h))
      · exact Or.inr (ChatServer.isValidMessage_false_of _ (Or.inr h))
    rw [ChatServer.onClientLine_decoded lib s c line now e obj hf hj,
      ChatServer.handleObject_private_invalid lib s c e obj now hT hl hv]
    exact ⟨(ChatServer.error_reply_only s c e "invalid private message" hf hw).1,
      (ChatServer.error_reply_only s c e "invalid private message" hf hw).2, rfl⟩
  · intro line now hsame line' now' obj' hj' hT' hlen d e' hd hl'
    have hv : Protocol.isValidMessage
        (Protocol.normalizeText (obj'.value (qstr "text")).toString) = true :=
      (Protocol.isValidMessage_iff _).2 hlen
    rw [hsame, ChatServer.onClientLine_decoded lib s c line' now' e obj' hf hj',
      ChatServer.handleObject_chat lib s c e obj' now' hT' hl hv]
    show sentTo d (ChatServer.broadcastJson s _ 0 ++ [Effect.log]) = _
    rw [sentTo_append,
      ChatServer.sentTo_broadcastJson_logged s _ d e' hi.nodup hd hl' (hi.workers d e' hd)]
    rfl

/-- In the example room, connection 1 (`a`) sends a blank chat, then a private message
with a blank text, then the chat `hi`, which connection 2 receives. -/
theorem invalid_message_refused_witness :
    Reachable demoLib demoRoom ∧
    allSends (ChatServer.onClientLine demoLib demoRoom 1 (67 :: qstr "  ") []).2 =
      [(1, errorMessage "invalid message")] ∧
    allSends (ChatServer.onClientLine demoLib demoRoom 1 (80 :: 66 :: qstr " ") []).2 =
      [(1, errorMessage "invalid private message")] ∧
    sentTo 2 (ChatServer.onClientLine demoLib
      (ChatServer.onClientLine demoLib demoRoom 1 (67 :: qstr "  ") []).1 1
      (67 :: qstr "hi") (qstr "t9")).2 = [chatMessage (qstr "a") (qstr "hi") (qstr "t9")] :=
  have h := invalid_message_refused demoLib demoRoom 1
    { name := qstr "a", worker := true, thread := true, loggedIn := true }
    demoRoom_reachable rfl rfl
  have hbad := h.1 (67 :: qstr "  ") []
    [(qstr "type", QJsonValue.string (qstr "chat")),
     (qstr "text", QJsonValue.string (qstr "  "))] rfl rfl (Or.inl rfl)
  ⟨demoRoom_reachable, hbad.1,
   (h.2.1 (80 :: 66 :: qstr " ") []
      [(qstr "type", QJsonValue.string (qstr "private")),
       (qstr "to", QJsonValue.string [66]), (qstr "text", QJsonValue.string (qstr " "))]
      rfl rfl (Or.inr (Or.inr (Or.inl rfl)))).1,
   h.2.2 (67 :: qstr "  ") [] hbad.2.2 (67 :: qstr "hi") (qstr "t9")
      [(qstr "type", QJsonValue.string (qstr "chat")),
       (qstr "text", QJsonValue.string (qstr "hi"))] rfl rfl (by decide) 2
      { name := qstr "B", worker := true, thread := true, loggedIn := true } rfl rfl⟩

/-! ## The roster is sorted -/

namespace ChatServer

theorem caseInsensitiveLe_cons (lib : QtLib) (x y : QChar) (as bs : QString) :
    caseInsensitiveLe lib (x :: as) (y :: bs) = true ↔
      lib.foldCase x < lib.foldCase y ∨
        (lib.foldCase x = lib.foldCase y ∧ caseInsensitiveLe lib as bs = true) := by
  have hdef : caseInsensitiveLe lib (x :: as) (y :: bs) =
      (if lib.foldCase x < lib.foldCase y then true
       else if lib.foldCase y < lib.foldCase x then false
       else caseInsensitiveLe lib as bs) := rfl
  rw [hdef]
  by_cases h1 : lib.foldCase x < lib.foldCase y
  · rw [if_pos h1]
    exact ⟨fun _ => Or.inl h1, fun _ => rfl⟩
  · rw [if_neg h1]
    by_cases h2 : lib.foldCase y < lib.foldCase x
    · rw [if_pos h2]
      constructor
      · intro h; exact Bool.noConfusion h
      · rintro (h | ⟨h, _⟩)
        · exact absurd h h1
        · rw [h] at h2; exact absurd h2 (Nat.lt_irrefl _)
    · rw [if_neg h2]
      constructor
      · intro h
        exact Or.inr ⟨Nat.le_antisymm (Nat.le_of_not_lt h2) (Nat.le_of_not_lt h1), h⟩
      · rintro (h | ⟨_, h⟩)
        · exact absurd h h1
        · exact h

theorem caseInsensitiveLe_total (lib : QtLib) (a b : QString) :
    caseInsensitiveLe lib a b = true ∨ caseInsensitiveLe lib b a = true := by
  induction a generalizing b with
  | nil => exact Or.inl rfl
  | cons x as ih =>
    cases b with
    | nil => exact Or.inr rfl
    | cons y bs =>
      rw [caseInsensitiveLe_cons, caseInsensitiveLe_cons]
      rcases Nat.lt_trichotomy (lib.foldCase x) (lib.foldCase y) with h | h | h
      · exact Or.inl (Or.inl h)
      · rcases ih bs with h' | h'
        · exact Or.inl (Or.inr ⟨h, h'⟩)
        · exact Or.inr (Or.inr ⟨h.symm, h'⟩)
      · exact Or.inr (Or.inl h)

theorem caseInsensitiveLe_trans (lib : QtLib) (a b c : QString)
    (hab : caseInsensitiveLe lib a b = true) (hbc : caseInsensitiveLe lib b c = true) :
    caseInsensitiveLe lib a c = true := by
  induction a generalizing b c with
  | nil => rfl
  | cons x as ih =>
    cases b with
    | nil => exact Bool.noConfusion hab
    | cons y bs =>
      cases c with
      | nil => exact Bool.noConfusion hbc
      | cons z cs =>
        rw [caseInsensitiveLe_cons] at hab hbc ⊢
        rcases hab with h1 | ⟨h1, h1'⟩
        · rcases hbc with h2 | ⟨h2, _⟩
          · exact Or.inl (Nat.lt_trans h1 h2)
          · exact Or.inl (h2 ▸ h1)
        · rcases hbc with h2 | ⟨h2, h2'⟩
          · exact Or.inl (h1 ▸ h2)
          · exact Or.inr ⟨h1.trans h2, ih bs cs h1' h2'⟩

theorem perm_sortedInsert (lib : QtLib) (u : QString) (l : List QString) :
    (sortedInsert lib u l).Perm (u :: l) := by
  induction l with
  | nil => exact List.Perm.refl _
  | cons v rest ih =>
    unfold sortedInsert
    by_cases h : caseInsensitiveLe lib u v = true
    · rw [if_pos h]
    · rw [if_neg h]
      exact (List.Perm.cons v ih).trans (List.Perm.swap u v rest)

theorem perm_sortCaseInsensitive (lib : QtLib) (l : List QString) :
    (sortCaseInsensitive lib l).Perm l := by
  induction l with
  | nil => exact List.Perm.refl _
  | cons u rest ih =>
    unfold sortCaseInsensitive
    exact (perm_sortedInsert lib u _).trans (List.Perm.cons u ih)

theorem pairwise_sortedInsert (lib : QtLib) (u : QString) (l : List QString)
    (h : List.Pairwise (fun a b => caseInsensitiveLe lib a b = true) l) :
    List.Pairwise (fun a b => caseInsensitiveLe lib a b = true) (sortedInsert lib u l) := by
  induction l with
  | nil => exact List.pairwise_singleton _ _
  | cons v rest ih =>
    have hv := List.pairwise_cons.1 h
    unfold sortedInsert
    by_cases hle : caseInsensitiveLe lib u v = true
    · rw [if_pos hle]
      refine List.pairwise_cons.2 ⟨?_, h⟩
      intro w hw
      rcases List.mem_cons.1 hw with e | e
      · rw [e]; exact hle
      · exact caseInsensitiveLe_trans lib u v w hle (hv.1 w e)
    · rw [if_neg hle]
      refine List.pairwise_cons.2 ⟨?_, ih hv.2⟩
      intro w hw
      rcases (mem_sortedInsert lib u w rest).1 hw with e | e
      · rw [e]
        rcases caseInsensitiveLe_total lib u v with h1 | h1
        · exact absurd h1 hle
        · exact h1
      · exact hv.1 w e

theorem pairwise_sortCaseInsensitive (lib : QtLib) (l : List QString) :
    List.Pairwise (fun a b => caseInsensitiveLe lib a b = true)
      (sortCaseInsensitive lib l) := by
  induction l with
  | nil => exact List.Pairwise.nil
  | cons u rest ih =>
    unfold sortCaseInsensitive
    exact pairwise_sortedInsert lib u _ ih

theorem allSends_flatMap_obj (obj : QJsonObject) (m : QHash Nat ClientEntry)
    (p : Nat × QJsonObject) (hp : p ∈ allSends (List.flatMap m (broadcastStep obj))) :
    p.2 = obj := by
  induction m with
  | nil => exact absurd hp (List.not_mem_nil _)
  | cons q m ih =>
    rw [flatMap_cons_eq, allSends_append, List.mem_append, broadcastStep_eq] at hp
    rcases hp with h | h
    · by_cases hb : (q.2.loggedIn && q.2.worker) = true
      · rw [if_pos hb] at h
        have h' : p ∈ [(q.1, obj)] := h
        rw [List.mem_singleton] at h'
        rw [h']
      · rw [if_neg hb] at h
        exact absurd h (List.not_mem_nil _)
    · exact ih h

end ChatServer

/-- C16: in every state the roster computed by `currentUsers` is a permutation of the
names of the logged-in entries of the session table (each such entry gives its name
once, an entry that is not logged in gives none), and it is sorted in non-decreasing
order of the case-insensitive comparison; every message queued by `broadcastUsers` is
the `user_list` whose `users` array is that roster. -/
theorem roster_sorted_permutation (lib : QtLib) (s : ChatServer) :
    (ChatServer.currentUsers lib s).Perm
      ((s.m_clients.filter (fun it => it.2.loggedIn)).map (fun it => it.2.name)) ∧
    (∀ x : QString, x ∈ ChatServer.currentUsers lib s ↔
      ∃ p ∈ s.m_clients, p.2.loggedIn = true ∧ p.2.name = x) ∧
    List.Pairwise (fun a b => ChatServer.caseInsensitiveLe lib a b = true)
      (ChatServer.currentUsers lib s) ∧
    (∀ p ∈ allSends (ChatServer.broadcastUsers lib s),
      p.2 = [(qstr "type", QJsonValue.string (qstr "user_list")),
             (qstr "users",
               QJsonValue.array ((ChatServer.currentUsers lib s).map QJsonValue.string))]) := by
  refine ⟨ChatServer.perm_sortCaseInsensitive lib _, ChatServer.mem_currentUsers lib s,
    ChatServer.pairwise_sortCaseInsensitive lib _, ?_⟩
  intro p hp
  exact ChatServer.allSends_flatMap_obj _ s.m_clients p hp

/-- The session table of the example room lists `B` before `a`; its roster is `a`, `B`,
the order that ignores case. -/
theorem roster_sorted_permutation_witness :
    (demoRoom.m_clients.filter (fun it => it.2.loggedIn)).map (fun it => it.2.name) =
      [qstr "B", qstr "a"] ∧
    ChatServer.currentUsers demoLib demoRoom = [qstr "a", qstr "B"] ∧
    List.Pairwise (fun a b => ChatServer.caseInsensitiveLe demoLib a b = true)
      (ChatServer.currentUsers demoLib demoRoom) :=
  ⟨rfl, rfl, (roster_sorted_permutation demoLib demoRoom).2.2.1⟩

/-! ## Framing -/

namespace ClientWorker

theorem segments_cons (c : Nat) (rest : QByteArray) :
    segments (c :: rest) = consByte c (segments rest) := rfl

theorem consByte_newline (p : List QByteArray × QByteArray) :
    consByte 10 p = ([] :: p.1, p.2) := by
  unfold consByte
  rw [if_pos rfl]

theorem consByte_nil (c : Nat) (hc : c ≠ 10) (rest : QByteArray) :
    consByte c ([], rest) = ([], c :: rest) := by
  unfold consByte
  rw [if_neg hc]

theorem consByte_seg (c : Nat) (hc : c ≠ 10) (seg : QByteArray) (segs : List QByteArray)
    (rest : QByteArray) : consByte c (seg :: segs, rest) = ((c :: seg) :: segs, rest) := by
  unfold consByte
  rw [if_neg hc]

/-- What `indexOf` finds, in terms of the cut of the buffer at its newlines. -/
theorem indexOf_segments (b : QByteArray) :
    (QByteArray.indexOf b 10 = -1 ∧ segments b = ([], b)) ∨
    (∃ n : Nat, QByteArray.indexOf b 10 = (n : Int) ∧ n < b.length ∧
      segments b = (b.take n :: (segments (b.drop (n + 1))).1,
        (segments (b.drop (n + 1))).2)) := by
  induction b with
  | nil => exact Or.inl ⟨rfl, rfl⟩
  | cons c rest ih =>
    have hdef : QByteArray.indexOf (c :: rest) 10 =
        (if c = 10 then 0
         else if QByteArray.indexOf rest 10 < 0 then -1
         else QByteArray.indexOf rest 10 + 1) := rfl
    by_cases hc : c = 10
    · refine Or.inr ⟨0, ?_, Nat.succ_pos _, ?_⟩
      · rw [hdef, if_pos hc]; rfl
      · rw [segments_cons, hc, consByte_newline]
        rfl
    · rcases ih with ⟨h1, h2⟩ | ⟨n, h1, h2, h3⟩
      · refine Or.inl ⟨?_, ?_⟩
        · rw [hdef, if_neg hc, h1, if_pos (by decide)]
        · rw [segments_cons, h2, consByte_nil c hc]
      · refine Or.inr ⟨n + 1, ?_, Nat.succ_lt_succ h2, ?_⟩
        · rw [hdef, if_neg hc, h1, if_neg (by omega)]
          rfl
        · rw [segments_cons, h3, consByte_seg c hc]
          rfl

theorem left_natCast (b : QByteArray) (n : Nat) : QByteArray.left b (n : Int) = b.take n := by
  unfold QByteArray.left
  rw [Int.toNat_ofNat]

theorem remove_natCast (b : QByteArray) (n : Nat) :
    QByteArray.remove b 0 ((n : Int) + 1) = b.drop (n + 1) := by
  unfold QByteArray.remove
  rw [if_neg (by decide)]
  have h : ((n : Int) + 1).toNat = n + 1 := by omega
  rw [h]
  simp

/-- The loop, given one more pass than the buffer has bytes, breaks, and returns the
trimmed non-empty texts before the newlines and what follows the last newline. -/
theorem readLoop_eq (fuel : Nat) (b : QByteArray) (h : b.length + 1 ≤ fuel) :
    readLoop fuel b = some (emitted (segments b).1, (segments b).2) := by
  induction fuel generalizing b with
  | zero => exact absurd h (by omega)
  | succ fuel ih =>
    have hdef : readLoop (fuel + 1) b =
        (if QByteArray.indexOf b 10 < 0 then some ([], b)
         else
           match readLoop fuel (QByteArray.remove b 0 (QByteArray.indexOf b 10 + 1)) with
           | none => none
           | some r =>
             if (QByteArray.trimmed (QByteArray.left b (QByteArray.indexOf b 10))).isEmpty then
               some r
             else
               some (QByteArray.trimmed (QByteArray.left b (QByteArray.indexOf b 10)) :: r.1,
                 r.2)) := rfl
    rw [hdef]
    rcases indexOf_segments b with ⟨h1, h2⟩ | ⟨n, h1, h2, h3⟩
    · rw [h1, if_pos (by decide), h2]
      rfl
    · rw [h1, if_neg (by omega), remove_natCast, left_natCast]
      have hlen : (b.drop (n + 1)).length + 1 ≤ fuel := by
        rw [List.length_drop]
        omega
      rw [ih (b.drop (n + 1)) hlen, h3]
      dsimp only
      by_cases he : (QByteArray.trimmed (b.take n)).isEmpty = true
      · rw [if_pos he]
        unfold emitted
        rw [List.map_cons, List.filter_cons, if_neg (by rw [he]; decide)]
      · rw [if_neg he]
        unfold emitted
        have he' : (QByteArray.trimmed (b.take n)).isEmpty = false := by
          cases hx : (QByteArray.trimmed (b.take n)).isEmpty with
          | false => rfl
          | true => exact absurd hx he
        rw [List.map_cons, List.filter_cons, if_pos (by rw [he']; rfl)]

theorem onReadyRead_eq (m_buffer bytes : QByteArray) :
    onReadyRead m_buffer bytes =
      some (emitted (segments (m_buffer ++ bytes)).1, (segments (m_buffer ++ bytes)).2) :=
  readLoop_eq _ _ (Nat.le_refl _)

theorem segments_append (x y : QByteArray) :
    segments (x ++ y) =
      ((segments x).1 ++ (segments ((segments x).2 ++ y)).1,
        (segments ((segments x).2 ++ y)).2) := by
  induction x with
  | nil => rfl
  | cons c xs ih =>
    rw [List.cons_append, segments_cons, ih, segments_cons]
    by_cases hc : c = 10
    · rw [hc, consByte_newline, consByte_newline]
      rfl
    · cases hs : (segments xs).1 with
      | nil =>
        have hp : segments xs = ([], (segments xs).2) := by
          rw [← hs]
        rw [hp, consByte_nil c hc]
        show consByte c ([] ++ (segments ((segments xs).2 ++ y)).1,
          (segments ((segments xs).2 ++ y)).2) = _
        rw [List.nil_append, List.nil_append, List.cons_append, segments_cons]
      | cons seg segs =>
        have hp : segments xs = (seg :: segs, (segments xs).2) := by
          rw [← hs]
        rw [hp, consByte_seg c hc]
        show consByte c ((seg :: segs) ++ (segments ((segments xs).2 ++ y)).1,
          (segments ((segments xs).2 ++ y)).2) = _
        rw [List.cons_append, consByte_seg c hc]
        rfl

theorem emitted_append (xs ys : List QByteArray) :
    emitted (xs ++ ys) = emitted xs ++ emitted ys := by
  unfold emitted
  rw [List.map_append, List.filter_append]

theorem segments_spec (b : QByteArray) :
    b = (segments b).1.flatMap (fun seg => seg ++ [10]) ++ (segments b).2 ∧
    (∀ seg ∈ (segments b).1, 10 ∉ seg) ∧ 10 ∉ (segments b).2 := by
  induction b with
  | nil =>
    refine ⟨rfl, ?_, ?_⟩
    · intro seg hseg; exact absurd hseg (List.not_mem_nil _)
    · exact List.not_mem_nil _
  | cons c rest ih =>
    obtain ⟨h1, h2, h3⟩ := ih
    rw [segments_cons]
    by_cases hc : c = 10
    · rw [hc, consByte_newline]
      refine ⟨?_, ?_, h3⟩
      · show 10 :: rest = List.flatMap ([] :: (segments rest).1) (fun seg => seg ++ [10]) ++
          (segments rest).2
        rw [List.flatMap_cons]
        show 10 :: rest = 10 :: (List.flatMap (segments rest).1 (fun seg => seg ++ [10]) ++
          (segments rest).2)
        rw [← h1]
      · intro seg hseg
        rcases List.mem_cons.1 hseg with e | e
        · rw [e]; exact List.not_mem_nil _
        · exact h2 seg e
    · cases hs : (segments rest).1 with
      | nil =>
        have hp : segments rest = ([], (segments rest).2) := by rw [← hs]
        rw [hs] at h1
        rw [hp, consByte_nil c hc]
        refine ⟨?_, ?_, ?_⟩
        · show c :: rest = c :: (segments rest).2
          exact congrArg (List.cons c) h1
        · intro seg hseg; exact absurd hseg (List.not_mem_nil _)
        · intro hm
          rcases List.mem_cons.1 hm with e | e
          · exact hc e.symm
          · exact h3 e
      | cons seg segs =>
        have hp : segments rest = (seg :: segs, (segments rest).2) := by rw [← hs]
        rw [hs] at h1 h2
        rw [hp, consByte_seg c hc]
        refine ⟨?_, ?_, h3⟩
        · show c :: rest = List.flatMap ((c :: seg) :: segs) (fun seg => seg ++ [10]) ++
            (segments rest).2
          rw [List.flatMap_cons] at h1 ⊢
          exact congrArg (List.cons c) h1
        · intro sg hsg
          rcases List.mem_cons.1 hsg with e | e
          · rw [e]
            intro hm
            rcases List.mem_cons.1 hm with e' | e'
            · exact hc e'.symm
            · exact h2 seg (List.mem_cons_self _ _) e'
          · exact h2 sg (List.mem_cons_of_mem _ e)

end ClientWorker

/-- C17: the framing of the client worker does not depend on how the byte stream is cut
into chunks. For every buffer content and byte strings `a` and `b`: the loop of
`onReadyRead` breaks (the step returns a result, and so does the loop with any larger
number of passes); the buffer as appended to is the texts `segs`, each followed by a
newline byte and none containing one, followed by the buffer that is left, which
contains no newline byte; the lines emitted are those texts trimmed, in order, without
the ones that are empty once trimmed; and the step on `a` followed by the step on `b`
emits the same lines and leaves the same buffer as one step on `a ++ b`. -/
theorem framing_chunk_independent (m_buffer a b : QByteArray) :
    (∃ (lines : List QByteArray) (rest : QByteArray) (segs : List QByteArray),
      ClientWorker.onReadyRead m_buffer a = some (lines, rest) ∧
      (∀ fuel : Nat, (m_buffer ++ a).length + 1 ≤ fuel →
        ClientWorker.readLoop fuel (m_buffer ++ a) = some (lines, rest)) ∧
      m_buffer ++ a = segs.flatMap (fun seg => seg ++ [10]) ++ rest ∧
      (∀ seg ∈ segs, 10 ∉ seg) ∧
      10 ∉ rest ∧
      lines = (segs.map QByteArray.trimmed).filter (fun line => !line.isEmpty) ∧
      (∀ line ∈ lines, line ≠ [])) ∧
    ClientWorker.onReadyRead m_buffer (a ++ b) =
      (ClientWorker.onReadyRead m_buffer a).bind (fun first =>
        (ClientWorker.onReadyRead first.2 b).map (fun second =>
          (first.1 ++ second.1, second.2))) := by
  constructor
  · have hs := ClientWorker.segments_spec (m_buffer ++ a)
    refine ⟨_, _, (ClientWorker.segments (m_buffer ++ a)).1,
      ClientWorker.onReadyRead_eq m_buffer a,
      fun fuel hfuel => ClientWorker.readLoop_eq fuel _ hfuel, hs.1, hs.2.1, hs.2.2, rfl, ?_⟩
    intro line hline hnil
    unfold ClientWorker.emitted at hline
    rw [List.mem_filter, hnil] at hline
    exact Bool.noConfusion hline.2
  · rw [ClientWorker.onReadyRead_eq m_buffer (a ++ b), ClientWorker.onReadyRead_eq m_buffer a]
    show _ = (ClientWorker.onReadyRead (ClientWorker.segments (m_buffer ++ a)).2 b).map _
    rw [ClientWorker.onReadyRead_eq, ← List.append_assoc,
      ClientWorker.segments_append (m_buffer ++ a) b, ClientWorker.emitted_append]
    rfl

/-- The bytes `hel`, then `lo`, a newline, a blank line and ` wor`, then `ld` and a
newline, give the lines `hello` and `world`, in one chunk or in two. -/
theorem framing_chunk_independent_witness :
    ClientWorker.onReadyRead (qbytes "hel") (qbytes "lo\n  \n wor") =
      some ([qbytes "hello"], qbytes " wor") ∧
    ClientWorker.onReadyRead (qbytes " wor") (qbytes "ld\n") = some ([qbytes "world"], []) ∧
    ClientWorker.onReadyRead (qbytes "hel") (qbytes "lo\n  \n wor" ++ qbytes "ld\n") =
      some ([qbytes "hello", qbytes "world"], []) ∧
    ClientWorker.onReadyRead (qbytes "hel") (qbytes "lo\n  \n wor" ++ qbytes "ld\n") =
      (ClientWorker.onReadyRead (qbytes "hel") (qbytes "lo\n  \n wor")).bind (fun first =>
        (ClientWorker.onReadyRead first.2 (qbytes "ld\n")).map (fun second =>
          (first.1 ++ second.1, second.2))) :=
  ⟨by decide, by decide, by decide,
   (framing_chunk_independent (qbytes "hel") (qbytes "lo\n  \n wor") (qbytes "ld\n")).2⟩
